import Mathlib

/-!
# Feature-Subset-Evaluator: nearest-neighbour LOOCV and greedy wrapper search

Shallow embedding of `CS170_Project_2/FeatureEvaluator.cpp`.

Modelling conventions
* A finite `double` is the rational number it denotes (`ℚ`); the values of a
  dataset are the doubles that `read_data_from_file` stored.  The arithmetic of
  lines 45-47 is IEEE 754 binary64: every difference, square, sum and square
  root is rounded to the nearest double, ties to even, and a result of
  magnitude `2^1024` or more is an infinity (`none`).  `pow(x, 2)` is taken as
  the correctly rounded square.  With finite data no NaN arises.
* The quotient of line 66 is kept as the exact `c / N`: for sample counts below
  `2^52` the rounded quotients compare exactly as the exact ones do.
* `vector<T>` is `List T`; `v[i]` is `List.getD v i d`.  Reading outside a vector is
  undefined behaviour in the source; the model reads the default there, and the
  theorems below state the bounds they rely on.
* `numeric_limits<double>::infinity()` is `none` in `Option ℚ`; the sentinel `-1`
  of the `int` location / feature variables is `none` in `Option Nat`.
* `cout` output is a list of `Event`s carried in the loop state.
* `for` loops are `List.foldl` over the index range, the loop variables being
  the fold state; the `while` loop of backward elimination takes fuel.
-/

namespace FeatureEvaluator

/-! ## IEEE 754 binary64 arithmetic of lines 45-47 -/

/-- Floor of the binary logarithm of `n` (0 for `n < 2`), by halving. -/
def log2_floor : Nat → Nat → Nat
  | 0, _ => 0
  | fuel + 1, n => if n < 2 then 0 else log2_floor fuel (n / 2) + 1

/-- Bisection for the integer square root: `lo * lo ≤ n < hi * hi`. -/
def sqrt_search (n : Nat) : Nat → Nat → Nat → Nat
  | 0, lo, _ => lo
  | fuel + 1, lo, hi =>
    if hi ≤ lo + 1 then lo
    else if ((lo + hi) / 2) * ((lo + hi) / 2) ≤ n then sqrt_search n fuel ((lo + hi) / 2) hi
    else sqrt_search n fuel lo ((lo + hi) / 2)

/-- Floor of the square root of `n`. -/
def sqrt_floor (n : Nat) : Nat :=
  sqrt_search n (n + 1) 0 (n + 1)

/-- The value `f n`, with `n` computed before `f` is applied to it: a local
variable that is computed once and read several times. -/
def force_nat {α : Type} (n : Nat) (f : Nat → α) : α :=
  match n with
  | 0 => f 0
  | k + 1 => f (k + 1)

/-- The value `f z`, with `z` computed before `f` is applied to it. -/
def force_int {α : Type} (z : Int) (f : Int → α) : α :=
  match z with
  | Int.ofNat n => force_nat n (fun k => f (Int.ofNat k))
  | Int.negSucc n => force_nat n (fun k => f (Int.negSucc k))

/-- Floor of the binary logarithm of the positive rational `n / d`: the
exponent `e` with `2^e ≤ n / d < 2^(e+1)`. -/
def binade (n d : Nat) : Int :=
  force_int ((log2_floor n n : Int) - (log2_floor d d : Int)) fun e0 =>
  if (if 0 ≤ e0 then d * 2 ^ e0.toNat ≤ n else d ≤ n * 2 ^ (-e0).toNat) then e0 else e0 - 1

/-- The integer nearest to `a / b`, ties to the even one. -/
def round_half_even (a b : Nat) : Nat :=
  if 2 * (a % b) < b then a / b
  else if b < 2 * (a % b) then a / b + 1
  else if (a / b) % 2 = 0 then a / b else a / b + 1

/-- The rational `m * 2^u`. -/
def scale (m : Nat) (u : Int) : ℚ :=
  if 0 ≤ u then ((m * 2 ^ u.toNat : Nat) : ℚ) else (m : ℚ) / ((2 ^ (-u).toNat : Nat) : ℚ)

/-- Rounding of the positive rational `n / d` to binary64: 53 significant
bits, the unit in the last place never below `2^-1074` (subnormal range), ties to
even; `none` (infinity) when the rounded value reaches `2^1024`. -/
def round_pos (n d : Nat) : Option ℚ :=
  force_int (max (binade n d - 52) (-1074)) fun u =>
  force_nat (if 0 ≤ u then round_half_even n (d * 2 ^ u.toNat)
    else round_half_even (n * 2 ^ (-u).toNat) d) fun m =>
  if scale m u < ((2 ^ 1024 : Nat) : ℚ) then some (scale m u) else none

/-- Rounding of a real result to the nearest double; `none` is an infinity
of either sign. -/
def round_double (q : ℚ) : Option ℚ :=
  force_int q.num fun n =>
  force_nat q.den fun d =>
  if n = 0 then some 0
  else if 0 < n then round_pos n.natAbs d
  else (round_pos n.natAbs d).map (fun v => -v)

/-- The double `a - b` of line 45. -/
def sub_double (a b : ℚ) : Option ℚ :=
  round_double (a - b)

/-- The double `pow(x, 2)` of line 45; the square of an infinity is
`+infinity`. -/
def pow2_double (x : Option ℚ) : Option ℚ :=
  x.bind (fun q => round_double (q * q))

/-- The double `x + y` of line 45 for non-negative `x` and `y`. -/
def add_double (x y : Option ℚ) : Option ℚ :=
  match x, y with
  | some a, some b => round_double (a + b)
  | _, _ => none

/-- Correctly rounded square root of the positive double `n / d`. -/
def sqrt_pos (n d : Nat) : ℚ :=
  force_int (binade n d / 2 - 52) fun u =>
  force_nat (if 0 ≤ u then n else n * 4 ^ (-u).toNat) fun a =>
  force_nat (if 0 ≤ u then d * 4 ^ u.toNat else d) fun b =>
  force_nat (sqrt_floor (a / b)) fun s =>
  force_nat (if (4 * s * s + 4 * s + 1) * b < 4 * a then s + 1
    else if (4 * s * s + 4 * s + 1) * b = 4 * a then (if s % 2 = 0 then s else s + 1)
    else s) fun m =>
  scale m u

/-- The double `sqrt(x)` of line 47 for a non-negative `x`; the square root
of `+infinity` is `+infinity`. -/
def sqrt_double (x : Option ℚ) : Option ℚ :=
  x.map (fun q =>
    force_int q.num fun n =>
    force_nat q.den fun d =>
    if n = 0 then 0 else sqrt_pos n.natAbs d)

/-! ## Evaluator (lines 15-67) -/

/-- Lines 21-26 and 35-40: a vector of `row.size()` zeros into which the
features of `current_set` are copied from `row`. -/
def select_features (row : List ℚ) (current_set : List Nat) : List ℚ :=
  current_set.foldl (fun v feature => v.set feature (row.getD feature 0))
    (List.replicate row.length 0)

/-- Lines 43-47: the variable `distance`, accumulated in double arithmetic
over `current_set` from `0.0` and replaced by its square root. -/
def distance (object_to_classify neighbor : List ℚ) (current_set : List Nat) : Option ℚ :=
  sqrt_double (current_set.foldl
    (fun d feature => add_double d
      (pow2_double (sub_double (object_to_classify.getD feature 0) (neighbor.getD feature 0))))
    (some 0))

/-- Line 50: `distance < nearest_neighbor_distance` on doubles that are
finite and non-negative or `+infinity` (`none`). -/
def closer (d : Option ℚ) (nearest_neighbor_distance : Option ℚ) : Bool :=
  match d, nearest_neighbor_distance with
  | none, _ => false
  | some _, none => true
  | some a, some m => decide (a < m)

/-- State of the neighbour loop: `nearest_neighbor_distance` and
`nearest_neighbor_location`. -/
structure Nearest where
  nearest_neighbor_distance : Option ℚ
  nearest_neighbor_location : Option Nat
deriving DecidableEq

/-- Body of the neighbour loop, lines 34-54, for the held-out sample `i`
and the candidate neighbour `k`. -/
def neighbor_step (data : List (List ℚ)) (current_set : List Nat) (i : Nat)
    (object_to_classify : List ℚ) (st : Nearest) (k : Nat) : Nearest :=
  if k ≠ i then
    let neighbor := select_features (data.getD k []) current_set
    let d := distance object_to_classify neighbor current_set
    if closer d st.nearest_neighbor_distance then
      { nearest_neighbor_distance := d, nearest_neighbor_location := some k }
    else st
  else st

/-- Lines 29-55: the neighbour loop for the held-out sample `i`. -/
def nearest_neighbor (data : List (List ℚ)) (current_set : List Nat) (i : Nat) : Nearest :=
  (List.range data.length).foldl
    (neighbor_step data current_set i (select_features (data.getD i []) current_set))
    { nearest_neighbor_distance := none, nearest_neighbor_location := none }

/-- Lines 57-63: whether the held-out sample `i` is counted as correctly
classified. -/
def classified_correctly (data : List (List ℚ)) (current_set : List Nat) (i : Nat) : Bool :=
  match (nearest_neighbor data current_set i).nearest_neighbor_location with
  | none => false
  | some loc => decide ((data.getD i []).getD 0 0 = (data.getD loc []).getD 0 0)

/-- Lines 16-64: the counter `number_correctly_classified` after the
sample loop. -/
def number_correctly_classified (data : List (List ℚ)) (current_set : List Nat) : Nat :=
  (List.range data.length).foldl
    (fun n i => if classified_correctly data current_set i then n + 1 else n) 0

/-- Function `leave_one_out_cross_validation`, lines 15-67. -/
def leave_one_out_cross_validation (data : List (List ℚ)) (current_set : List Nat) : ℚ :=
  (number_correctly_classified data current_set : ℚ) / (data.length : ℚ)

/-- The dataset of the concrete scenario: rows `(label, f1, f2)`.  The
decimals 1.1 and 5.1 are stored as the nearest doubles. -/
def scenario : List (List ℚ) :=
  [[1, 1, 10], [1, 2476979795053773 / 2251799813685248, 10], [2, 5, 10],
    [2, 2871044762448691 / 562949953421312, 10]]

/-- The scenario dataset with the values of feature 2 replaced. -/
def scenario_other_f2 : List (List ℚ) :=
  [[1, 1, 0], [1, 2476979795053773 / 2251799813685248, 7], [2, 5, -3],
    [2, 2871044762448691 / 562949953421312, 99]]

/-! ## Search (lines 70-183) -/

/-- Line 72 and line 126: `data[0].size() - 1`, the number of features.
On a first row without any value the source gets `-1` and the model `0`; the
loops bounded by it run no iteration in either case. -/
def num_features (data : List (List ℚ)) : Nat :=
  (data.getD 0 []).length - 1

/-- One line of progress output. -/
inductive Event where
  /-- Lines 91-95 and 153-157: "Using feature(s) {new_set} accuracy is ...". -/
  | using_features (new_set : List Nat) (accuracy : ℚ)
  /-- Line 107: "Feature set {k} was best, accuracy is ...". -/
  | was_best (feature : Nat) (accuracy : ℚ)
  /-- Line 167: "Removing feature f for best accuracy of ...". -/
  | removing (feature : Nat) (accuracy : ℚ)
deriving DecidableEq

/-- Variables of one level of forward selection (lines 80-81) and the
output produced so far. -/
structure ForwardLevel where
  feature_to_add_at_this_level : Option Nat
  best_so_far_accuracy : ℚ
  output : List Event
deriving DecidableEq

/-- Variables of the search loops (lines 71-76, 125-137) and the output
produced so far. -/
structure Search where
  current_set_of_features : List Nat
  best_overall_accuracy : ℚ
  best_feature_set : List Nat
  output : List Event
deriving DecidableEq

/-- Body of the candidate loop of forward selection, lines 85-102. -/
def forward_candidate (data : List (List ℚ)) (current_set_of_features : List Nat)
    (lv : ForwardLevel) (k : Nat) : ForwardLevel :=
  if k ∉ current_set_of_features then
    let new_set := current_set_of_features ++ [k]
    let accuracy := leave_one_out_cross_validation data new_set
    let out := lv.output ++ [Event.using_features new_set accuracy]
    if accuracy > lv.best_so_far_accuracy then
      { feature_to_add_at_this_level := some k, best_so_far_accuracy := accuracy, output := out }
    else { lv with output := out }
  else lv

/-- Lines 80-103: the candidate loop `for (k = 1; k <= num_features; k++)`
of one level. -/
def forward_scan (data : List (List ℚ)) (current_set_of_features : List Nat)
    (output : List Event) : ForwardLevel :=
  (List.range' 1 (num_features data)).foldl (forward_candidate data current_set_of_features)
    { feature_to_add_at_this_level := none, best_so_far_accuracy := 0, output := output }

/-- Lines 80-113: one level of forward selection. -/
def forward_level (data : List (List ℚ)) (s : Search) : Search :=
  let lv := forward_scan data s.current_set_of_features s.output
  match lv.feature_to_add_at_this_level with
  | some k =>
    let current := s.current_set_of_features ++ [k]
    let out := lv.output ++ [Event.was_best k lv.best_so_far_accuracy]
    if lv.best_so_far_accuracy > s.best_overall_accuracy then
      { current_set_of_features := current, best_overall_accuracy := lv.best_so_far_accuracy,
        best_feature_set := current, output := out }
    else { s with current_set_of_features := current, output := out }
  | none => { s with output := lv.output }

/-- Lines 71-76: the variables of forward selection before the first
level. -/
def forward_init : Search :=
  { current_set_of_features := [], best_overall_accuracy := 0, best_feature_set := [],
    output := [] }

/-- The variables of forward selection after the first `levels` iterations
of the loop of line 79. -/
def forward_levels (data : List (List ℚ)) (levels : Nat) : Search :=
  (List.range levels).foldl (fun s _ => forward_level data s) forward_init

/-- Function `feature_search_demo`, lines 70-121: the loop of line 79 runs
`num_features` levels; the result holds the reported best subset and accuracy. -/
def feature_search_demo (data : List (List ℚ)) : Search :=
  forward_levels data (num_features data)

/-- Variables of one level of backward elimination (lines 141-143) and the
output produced so far. -/
structure BackwardLevel where
  best_so_far_accuracy : ℚ
  feature_to_remove : Option Nat
  best_temp_set : List Nat
  output : List Event
deriving DecidableEq

/-- Body of the candidate loop of backward elimination, lines 147-164. -/
def backward_candidate (data : List (List ℚ)) (current_set_of_features : List Nat)
    (lv : BackwardLevel) (i : Nat) : BackwardLevel :=
  let new_set := current_set_of_features.eraseIdx i
  let accuracy := leave_one_out_cross_validation data new_set
  let out := lv.output ++ [Event.using_features new_set accuracy]
  if accuracy > lv.best_so_far_accuracy ∨ lv.feature_to_remove = none then
    { best_so_far_accuracy := accuracy, feature_to_remove := some i, best_temp_set := new_set,
      output := out }
  else { lv with output := out }

/-- Lines 141-165: the candidate loop of one level of backward
elimination. -/
def backward_scan (data : List (List ℚ)) (current_set_of_features : List Nat)
    (output : List Event) : BackwardLevel :=
  (List.range current_set_of_features.length).foldl
    (backward_candidate data current_set_of_features)
    { best_so_far_accuracy := 0, feature_to_remove := none,
      best_temp_set := current_set_of_features, output := output }

/-- Line 167: `current_set_of_features[feature_to_remove]`. -/
def removed_feature (current_set_of_features : List Nat) (feature_to_remove : Option Nat) : Nat :=
  match feature_to_remove with
  | some i => current_set_of_features.getD i 0
  | none => 0

/-- Lines 141-174: one level of backward elimination. -/
def backward_level (data : List (List ℚ)) (s : Search) : Search :=
  let lv := backward_scan data s.current_set_of_features s.output
  let out := lv.output ++
    [Event.removing (removed_feature s.current_set_of_features lv.feature_to_remove)
      lv.best_so_far_accuracy]
  if lv.best_so_far_accuracy > s.best_overall_accuracy then
    { current_set_of_features := lv.best_temp_set,
      best_overall_accuracy := lv.best_so_far_accuracy,
      best_feature_set := lv.best_temp_set, output := out }
  else { s with current_set_of_features := lv.best_temp_set, output := out }

/-- Lines 125-137: the variables of backward elimination before the
loop. -/
def backward_init (data : List (List ℚ)) : Search :=
  { current_set_of_features := List.range' 1 (num_features data),
    best_overall_accuracy :=
      leave_one_out_cross_validation data (List.range' 1 (num_features data)),
    best_feature_set := List.range' 1 (num_features data), output := [] }

/-- Lines 140-175: the loop `while (current_set_of_features.size() > 0)`.
The result is `none` when the fuel runs out before the loop condition fails;
otherwise it is the state at loop exit together with the number of levels run. -/
def backward_loop (data : List (List ℚ)) : Nat → Search → Option (Search × Nat)
  | 0, s => if s.current_set_of_features.length > 0 then none else some (s, 0)
  | fuel + 1, s =>
    if s.current_set_of_features.length > 0 then
      (backward_loop data fuel (backward_level data s)).map (fun r => (r.1, r.2 + 1))
    else some (s, 0)

/-- Function `backward_elimination_demo`, lines 124-183. -/
def backward_elimination_demo (data : List (List ℚ)) (fuel : Nat) : Option (Search × Nat) :=
  backward_loop data fuel (backward_init data)

/-! ## Well-formedness of the inputs and the reference notions of the specification -/

/-- A dataset is rectangular when every row holds the label and the
`num_features data` feature values. -/
def rectangular (data : List (List ℚ)) : Prop :=
  ∀ row ∈ data, row.length = num_features data + 1

instance (data : List (List ℚ)) : Decidable (rectangular data) := by
  unfold rectangular; infer_instance

/-- The feature indices of `current_set` all lie in `[1, F]`. -/
def valid_subset (data : List (List ℚ)) (current_set : List Nat) : Prop :=
  ∀ feature ∈ current_set, 1 ≤ feature ∧ feature ≤ num_features data

instance (data : List (List ℚ)) (current_set : List Nat) :
    Decidable (valid_subset data current_set) := by
  unfold valid_subset; infer_instance

/-- Class label (column 0) of sample `i`. -/
def label (data : List (List ℚ)) (i : Nat) : ℚ :=
  (data.getD i []).getD 0 0

/-- Sum over the coordinates in `S` of the squared differences between rows
`i` and `k`; the Euclidean distance of the specification is its square root. -/
def squared_distance (data : List (List ℚ)) (S : List Nat) (i k : Nat) : ℚ :=
  (S.map (fun f => ((data.getD i []).getD f 0 - (data.getD k []).getD f 0) ^ 2)).sum

/-- The value of `distance` after the loop of lines 44-46 for the held-out
sample `i` and the neighbour `k`: the sum of the squared differences over `S`,
computed in double arithmetic in the order of `S`. -/
def computed_sum (data : List (List ℚ)) (S : List Nat) (i k : Nat) : Option ℚ :=
  S.foldl
    (fun d f => add_double d
      (pow2_double (sub_double ((data.getD i []).getD f 0) ((data.getD k []).getD f 0))))
    (some 0)

/-- The distance between the samples `i` and `k` as lines 43-47 compute it:
a finite double or `+infinity` (`none`). -/
def computed_distance (data : List (List ℚ)) (S : List Nat) (i k : Nat) : Option ℚ :=
  sqrt_double (computed_sum data S i k)

/-- Strict order of computed distances, `none` being `+infinity`. -/
def dist_lt (x y : Option ℚ) : Prop :=
  match x, y with
  | some a, some b => a < b
  | some _, none => True
  | none, _ => False

/-- Weak order of computed distances, `none` being `+infinity`. -/
def dist_le (x y : Option ℚ) : Prop :=
  ¬ dist_lt y x

/-- Every value of the dataset is a finite double. -/
def double_dataset (data : List (List ℚ)) : Prop :=
  ∀ row ∈ data, ∀ x ∈ row, round_double x = some x

instance (data : List (List ℚ)) : Decidable (double_dataset data) := by
  unfold double_dataset; infer_instance

/-- A dataset on which the order of summation changes a computed distance:
rows `(label, f1, f2, f3, f4)`, the large value being `2^27`. -/
def order_sensitive : List (List ℚ) :=
  [[1, 0, 0, 0, 0], [2, 134217728, 1, 1, 2], [1, 134217728, 0, 0, 0]]

/-- A dataset on which forward selection adds a feature at every level, in
the order 2, 3, 1, and the accuracy of the list `[2, 3, 1]` differs from that of
`[1, 2, 3]`: rows `(label, f1, f2, f3)`, the large values being `1.5 * 2^27` and
`2^28`. -/
def order_trap : List (List ℚ) :=
  [[2, 1, 0, 201326592], [1, 7 / 4, 7 / 4, 201326592], [1, 0, 3, 268435456], [2, 0, 3, 0]]

/-- Some candidate of the forward level that starts from `current` (the
subset `current` plus one feature of `[1, F]` not in it) has accuracy above 0. -/
def has_positive_candidate (data : List (List ℚ)) (current : List Nat) : Prop :=
  ∃ j ∈ List.range' 1 (num_features data), j ∉ current ∧
    0 < leave_one_out_cross_validation data (current ++ [j])

instance (data : List (List ℚ)) (current : List Nat) :
    Decidable (has_positive_candidate data current) := by
  unfold has_positive_candidate; infer_instance

/-- Feature `k` is the smallest-indexed feature of `[1, F]` not in `current`
whose candidate `current ++ [k]` attains the maximum accuracy among the candidates
of the level. -/
def first_best_candidate (data : List (List ℚ)) (current : List Nat) (k : Nat) : Prop :=
  k ∈ List.range' 1 (num_features data) ∧ k ∉ current ∧
  (∀ j ∈ List.range' 1 (num_features data), j ∉ current →
    leave_one_out_cross_validation data (current ++ [j]) ≤
      leave_one_out_cross_validation data (current ++ [k])) ∧
  (∀ j ∈ List.range' 1 (num_features data), j ∉ current → j < k →
    leave_one_out_cross_validation data (current ++ [j]) <
      leave_one_out_cross_validation data (current ++ [k]))

instance (data : List (List ℚ)) (current : List Nat) (k : Nat) :
    Decidable (first_best_candidate data current k) := by
  unfold first_best_candidate; infer_instance

/-- A dataset on which each feature alone classifies no sample correctly
although the two features together do: rows `(label, f1, f2)`. -/
def crossed : List (List ℚ) :=
  [[1, 0, 0], [1, 3, 3], [2, 1, 5], [2, 5, 1]]

/-- A dataset on which feature 1 alone separates the labels while the
wide-ranging features 2 and 3 mislead every subset that holds one of them: rows
`(label, f1, f2, f3)`. -/
def masked : List (List ℚ) :=
  [[1, 0, 0, 0], [1, 1, 1000, 1000], [2, 10, 10, 10], [2, 11, 1010, 1010]]

/-- A dataset without features: two samples that hold only the label. -/
def labels_only : List (List ℚ) :=
  [[1], [1]]

/-! ## Progress output of one level and the states between levels -/

/-- The "Using feature(s)" lines of one level of forward selection from the
subset `current`: one per feature of `[1, F]` not in `current`, in ascending
order, each with the accuracy the evaluator returns for the candidate. -/
def forward_events (data : List (List ℚ)) (current : List Nat) : List Event :=
  ((List.range' 1 (num_features data)).filter (fun k => decide (k ∉ current))).map
    (fun k => Event.using_features (current ++ [k])
      (leave_one_out_cross_validation data (current ++ [k])))

/-- The "Using feature(s)" lines of one level of backward elimination from
the subset `current`: one per position of `current`, in ascending order. -/
def backward_events (data : List (List ℚ)) (current : List Nat) : List Event :=
  (List.range current.length).map
    (fun i => Event.using_features (current.eraseIdx i)
      (leave_one_out_cross_validation data (current.eraseIdx i)))

/-- The variables of backward elimination after the first `levels`
iterations of the loop of line 140. -/
def backward_levels (data : List (List ℚ)) (levels : Nat) : Search :=
  (backward_level data)^[levels] (backward_init data)

/-- The selection rule of the candidate loop of forward selection (lines
80-81 and 98-101) on the accuracies of the candidates in the order of their
evaluation: the chosen position (`none` for `-1`) and the running best. -/
def forward_rule (accuracies : List ℚ) : Option Nat × ℚ :=
  accuracies.enum.foldl (fun st pa => if pa.2 > st.2 then (some pa.1, pa.2) else st) (none, 0)

/-- The selection rule of the candidate loop of backward elimination (lines
141-142 and 160-163) on the accuracies of the candidates in the order of their
evaluation. -/
def backward_rule (accuracies : List ℚ) : Option Nat × ℚ :=
  accuracies.enum.foldl
    (fun st pa => if pa.2 > st.2 ∨ st.1 = none then (some pa.1, pa.2) else st) (none, 0)

/-- The features tried by one level of forward selection from the subset
`current`, in the order of the loop of line 84. -/
def forward_candidates (data : List (List ℚ)) (current : List Nat) : List Nat :=
  (List.range' 1 (num_features data)).filter (fun k => decide (k ∉ current))

/-- The accuracies of the candidates of one level of forward selection, in
the order of their evaluation. -/
def forward_accuracies (data : List (List ℚ)) (current : List Nat) : List ℚ :=
  (forward_candidates data current).map
    (fun k => leave_one_out_cross_validation data (current ++ [k]))

/-- The accuracies of the candidates of one level of backward elimination,
in the order of their evaluation. -/
def backward_accuracies (data : List (List ℚ)) (current : List Nat) : List ℚ :=
  (List.range current.length).map
    (fun i => leave_one_out_cross_validation data (current.eraseIdx i))

/-- A list that the evaluator can take without reading outside a row: its
indices are distinct, lie in `[1, F]`, and are positions of every row. -/
def safe_subset (data : List (List ℚ)) (S : List Nat) : Prop :=
  S.Nodup ∧ valid_subset data S ∧ ∀ row ∈ data, ∀ f ∈ S, f < row.length

/-! ## Loop prefixes used by the invariants -/

/-- The neighbour loop for the held-out sample `i` after its first `n`
iterations. -/
def nearest_upto (data : List (List ℚ)) (S : List Nat) (i n : Nat) : Nearest :=
  (List.range n).foldl (neighbor_step data S i (select_features (data.getD i []) S))
    { nearest_neighbor_distance := none, nearest_neighbor_location := none }

/-- The candidate loop of one forward level after its first `n`
iterations. -/
def forward_scan_upto (data : List (List ℚ)) (current : List Nat) (output : List Event)
    (n : Nat) : ForwardLevel :=
  (List.range' 1 n).foldl (forward_candidate data current)
    { feature_to_add_at_this_level := none, best_so_far_accuracy := 0, output := output }

/-- The candidate loop of one backward level after its first `n`
iterations. -/
def backward_scan_upto (data : List (List ℚ)) (current : List Nat) (output : List Event)
    (n : Nat) : BackwardLevel :=
  (List.range n).foldl (backward_candidate data current)
    { best_so_far_accuracy := 0, feature_to_remove := none, best_temp_set := current,
      output := output }

/-! ## Lemmas on the arithmetic -/

theorem force_nat_eq {α : Type} (n : Nat) (f : Nat → α) : force_nat n f = f n := by
  cases n <;> rfl

theorem force_int_eq {α : Type} (z : Int) (f : Int → α) : force_int z f = f z := by
  cases z <;> simp only [force_int, force_nat_eq]

/-- The first estimate of `binade` is corrected downwards by at most one. -/
theorem binade_eq (n d : Nat) :
    binade n d =
      (let e0 : Int := (log2_floor n n : Int) - (log2_floor d d : Int)
       if (if 0 ≤ e0 then d * 2 ^ e0.toNat ≤ n else d ≤ n * 2 ^ (-e0).toNat) then e0
       else e0 - 1) := by
  simp only [binade, force_int_eq]

/-- A positive rational is rounded to `m * 2^u`, `u` the unit in the last
place and `m` the nearest integer multiple. -/
theorem round_pos_eq (n d : Nat) :
    round_pos n d =
      (let u : Int := max (binade n d - 52) (-1074)
       let m : Nat :=
         if 0 ≤ u then round_half_even n (d * 2 ^ u.toNat)
         else round_half_even (n * 2 ^ (-u).toNat) d
       if scale m u < ((2 ^ 1024 : Nat) : ℚ) then some (scale m u) else none) := by
  simp only [round_pos, force_int_eq, force_nat_eq]

/-- Rounding is by sign and magnitude. -/
theorem round_double_eq (q : ℚ) :
    round_double q =
      if q = 0 then some 0
      else if 0 < q then round_pos q.num.natAbs q.den
      else (round_pos q.num.natAbs q.den).map (fun v => -v) := by
  simp only [round_double, force_int_eq, force_nat_eq, Rat.num_eq_zero, Rat.num_pos]

/-- The square root of `n / d` is `m * 2^u` with `m` the integer nearest to
the square root of `(n / d) / 4^u`, which has 53 bits. -/
theorem sqrt_pos_eq (n d : Nat) :
    sqrt_pos n d =
      (let u : Int := binade n d / 2 - 52
       let a : Nat := if 0 ≤ u then n else n * 4 ^ (-u).toNat
       let b : Nat := if 0 ≤ u then d * 4 ^ u.toNat else d
       let s : Nat := sqrt_floor (a / b)
       let m : Nat :=
         if (4 * s * s + 4 * s + 1) * b < 4 * a then s + 1
         else if (4 * s * s + 4 * s + 1) * b = 4 * a then (if s % 2 = 0 then s else s + 1)
         else s
       scale m u) := by
  simp only [sqrt_pos, force_int_eq, force_nat_eq]

theorem sqrt_double_eq (x : Option ℚ) :
    sqrt_double x = x.map (fun q => if q = 0 then 0 else sqrt_pos q.num.natAbs q.den) := by
  simp only [sqrt_double, force_int_eq, force_nat_eq, Rat.num_eq_zero]

/-! ## Lemmas on the evaluator -/

theorem foldl_congr_mem {α β : Type} (f g : α → β → α) (l : List β)
    (h : ∀ a, ∀ x ∈ l, f a x = g a x) (a : α) : l.foldl f a = l.foldl g a := by
  induction l generalizing a with
  | nil => rfl
  | cons x xs ih =>
    simp only [List.foldl_cons]
    rw [h a x (List.mem_cons_self x xs)]
    exact ih (fun b y hy => h b y (List.mem_cons_of_mem x hy)) _

theorem foldl_count (p : Nat → Bool) (l : List Nat) (n : Nat) :
    l.foldl (fun n i => if p i then n + 1 else n) n = n + (l.filter p).length := by
  induction l generalizing n with
  | nil => simp
  | cons x xs ih =>
    simp only [List.foldl_cons, List.filter_cons]
    rw [ih]
    by_cases hp : p x
    · simp [hp]; omega
    · simp [hp]

theorem select_features_fold_getD (row : List ℚ) (S : List Nat) (v : List ℚ)
    (hv : v.length = row.length) (g : Nat) :
    (S.foldl (fun v feature => v.set feature (row.getD feature 0)) v).getD g 0 =
      if g ∈ S then row.getD g 0 else v.getD g 0 := by
  induction S generalizing v with
  | nil => simp
  | cons f fs ih =>
    simp only [List.foldl_cons]
    rw [ih (v.set f (row.getD f 0)) (by simp [hv])]
    by_cases hg : g ∈ fs
    · simp [hg]
    · simp only [hg, if_false, List.mem_cons, or_false]
      by_cases hgf : g = f
      · subst hgf
        simp only [if_true]
        by_cases hlt : g < v.length
        · simp [List.getD_eq_getElem?_getD, List.getElem?_set, hlt]
        · have h1 : row.length ≤ g := by omega
          have h2 : v.length ≤ g := by omega
          simp [List.getD_eq_getElem?_getD, List.getElem?_set, List.getElem?_eq_none h1, hlt]
      · simp only [hgf, if_false]
        simp [List.getD_eq_getElem?_getD, List.getElem?_set, Ne.symm hgf]

theorem select_features_getD (row : List ℚ) (S : List Nat) (g : Nat) (hg : g ∈ S) :
    (select_features row S).getD g 0 = row.getD g 0 := by
  unfold select_features
  rw [select_features_fold_getD row S _ (by simp) g]
  simp [hg]

theorem distance_select (data : List (List ℚ)) (S : List Nat) (i k : Nat) :
    distance (select_features (data.getD i []) S) (select_features (data.getD k []) S) S =
      computed_distance data S i k := by
  unfold distance computed_distance computed_sum
  congr 1
  apply foldl_congr_mem
  intro d f hf
  simp only [select_features_getD _ S f hf]

theorem closer_iff (x y : Option ℚ) : closer x y = true ↔ dist_lt x y := by
  cases x <;> cases y <;> simp [closer, dist_lt]

theorem ne_none_of_dist_lt (x y : Option ℚ) (h : dist_lt x y) : x ≠ none := by
  cases x with
  | none => simp [dist_lt] at h
  | some a => simp

theorem eq_none_of_not_lt_none (x : Option ℚ) (h : ¬ dist_lt x none) : x = none := by
  cases x with
  | none => rfl
  | some a => simp [dist_lt] at h

theorem dist_le_refl (x : Option ℚ) : dist_le x x := by
  cases x <;> simp [dist_le, dist_lt]

theorem dist_le_of_lt (x y : Option ℚ) (h : dist_lt x y) : dist_le x y := by
  cases x <;> cases y <;> simp_all [dist_le, dist_lt]
  exact le_of_lt h

theorem dist_lt_of_lt_of_le (x y z : Option ℚ) (h1 : dist_lt x y) (h2 : dist_le y z) :
    dist_lt x z := by
  cases x <;> cases y <;> cases z <;> simp_all [dist_le, dist_lt]
  exact lt_of_lt_of_le h1 h2

theorem dist_le_trans (x y z : Option ℚ) (h1 : dist_le x y) (h2 : dist_le y z) :
    dist_le x z := by
  cases x <;> cases y <;> cases z <;> simp_all [dist_le, dist_lt]
  exact le_trans h1 h2

theorem neighbor_step_eq (data : List (List ℚ)) (S : List Nat) (i : Nat) (st : Nearest)
    (k : Nat) :
    neighbor_step data S i (select_features (data.getD i []) S) st k =
      if k ≠ i then
        if closer (computed_distance data S i k) st.nearest_neighbor_distance then
          { nearest_neighbor_distance := computed_distance data S i k,
            nearest_neighbor_location := some k }
        else st
      else st := by
  unfold neighbor_step
  simp only [distance_select]

theorem nearest_upto_succ (data : List (List ℚ)) (S : List Nat) (i n : Nat) :
    nearest_upto data S i (n + 1) =
      neighbor_step data S i (select_features (data.getD i []) S) (nearest_upto data S i n) n := by
  simp [nearest_upto, List.range_succ, List.foldl_append]

/-- Invariant of the neighbour loop: the kept location is the first index
other than `i` at the least computed distance, a finite one; no location is kept
while every neighbour seen is at the computed distance `+infinity`. -/
theorem nearest_upto_invariant (data : List (List ℚ)) (S : List Nat) (i n : Nat) :
    ((nearest_upto data S i n).nearest_neighbor_location = none →
      (nearest_upto data S i n).nearest_neighbor_distance = none ∧
      ∀ k, k < n → k ≠ i → computed_distance data S i k = none) ∧
    (∀ m, (nearest_upto data S i n).nearest_neighbor_location = some m →
      m < n ∧ m ≠ i ∧
      (nearest_upto data S i n).nearest_neighbor_distance = computed_distance data S i m ∧
      computed_distance data S i m ≠ none ∧
      (∀ j, j < n → j ≠ i →
        dist_le (computed_distance data S i m) (computed_distance data S i j)) ∧
      (∀ j, j < m → j ≠ i →
        dist_lt (computed_distance data S i m) (computed_distance data S i j))) := by
  induction n with
  | zero => simp [nearest_upto]
  | succ n ih =>
    rw [nearest_upto_succ, neighbor_step_eq]
    obtain ⟨ih1, ih2⟩ := ih
    have hold : ∀ j, j < n → j ≠ i →
        dist_le (nearest_upto data S i n).nearest_neighbor_distance
          (computed_distance data S i j) := by
      intro j hj hji
      cases hloc : (nearest_upto data S i n).nearest_neighbor_location with
      | none =>
        rw [(ih1 hloc).1, (ih1 hloc).2 j hj hji]
        exact dist_le_refl none
      | some m0 =>
        obtain ⟨_, _, c, _, d, _⟩ := ih2 m0 hloc
        rw [c]
        exact d j hj hji
    by_cases hni : n = i
    · simp only [hni, ne_eq, not_true_eq_false, if_false]
      subst hni
      refine ⟨fun h => ⟨(ih1 h).1, fun k hk hki => (ih1 h).2 k (by omega) hki⟩, fun m hm => ?_⟩
      obtain ⟨a, b, c, d, e, f⟩ := ih2 m hm
      exact ⟨by omega, b, c, d, fun j hj hji => e j (by omega) hji, f⟩
    · simp only [ne_eq, hni, not_false_eq_true, if_true]
      by_cases hc : closer (computed_distance data S i n)
          (nearest_upto data S i n).nearest_neighbor_distance = true
      · simp only [hc, if_true]
        have hlt := (closer_iff _ _).mp hc
        refine ⟨fun h => by simp at h, fun m hm => ?_⟩
        simp only [Option.some.injEq] at hm
        subst hm
        refine ⟨by omega, hni, rfl, ne_none_of_dist_lt _ _ hlt, fun j hj hji => ?_,
          fun j hj hji => dist_lt_of_lt_of_le _ _ _ hlt (hold j hj hji)⟩
        rcases Nat.lt_succ_iff_lt_or_eq.mp hj with hjn | hjn
        · exact dist_le_of_lt _ _ (dist_lt_of_lt_of_le _ _ _ hlt (hold j hjn hji))
        · rw [hjn]; exact dist_le_refl _
      · simp only [hc, if_false, Bool.false_eq_true]
        have hnlt : ¬ dist_lt (computed_distance data S i n)
            (nearest_upto data S i n).nearest_neighbor_distance :=
          fun h => hc ((closer_iff _ _).mpr h)
        refine ⟨fun h => ⟨(ih1 h).1, fun k hk hki => ?_⟩, fun m hm => ?_⟩
        · rcases Nat.lt_succ_iff_lt_or_eq.mp hk with hkn | hkn
          · exact (ih1 h).2 k hkn hki
          · rw [hkn]
            rw [(ih1 h).1] at hnlt
            exact eq_none_of_not_lt_none _ hnlt
        · obtain ⟨a, b, c, d, e, f⟩ := ih2 m hm
          refine ⟨by omega, b, c, d, fun j hj hji => ?_, f⟩
          rcases Nat.lt_succ_iff_lt_or_eq.mp hj with hjn | hjn
          · exact e j hjn hji
          · rw [hjn]
            rw [c] at hnlt
            exact hnlt

theorem squared_distance_nonneg (data : List (List ℚ)) (S : List Nat) (i k : Nat) :
    0 ≤ squared_distance data S i k := by
  unfold squared_distance
  apply List.sum_nonneg
  intro x hx
  simp only [List.mem_map] at hx
  obtain ⟨f, _, rfl⟩ := hx
  exact sq_nonneg _

theorem nearest_neighbor_eq_upto (data : List (List ℚ)) (S : List Nat) (i : Nat) :
    nearest_neighbor data S i = nearest_upto data S i data.length := rfl

theorem number_correctly_classified_eq (data : List (List ℚ)) (S : List Nat) :
    number_correctly_classified data S =
      ((List.range data.length).filter (classified_correctly data S)).length := by
  unfold number_correctly_classified
  rw [foldl_count]
  simp

theorem number_correctly_classified_le (data : List (List ℚ)) (S : List Nat) :
    number_correctly_classified data S ≤ data.length := by
  rw [number_correctly_classified_eq]
  calc ((List.range data.length).filter (classified_correctly data S)).length
      ≤ (List.range data.length).length := List.length_filter_le _ _
    _ = data.length := List.length_range _

/-- The neighbour loop depends on the dataset and the subset only through
the computed distances to the held-out sample. -/
theorem nearest_neighbor_congr (data data2 : List (List ℚ)) (S S2 : List Nat) (i : Nat)
    (hlen : data.length = data2.length)
    (hd : ∀ k, k < data.length →
      computed_distance data S i k = computed_distance data2 S2 i k) :
    nearest_neighbor data S i = nearest_neighbor data2 S2 i := by
  unfold nearest_neighbor
  rw [← hlen]
  apply foldl_congr_mem
  intro st k hk
  rw [neighbor_step_eq, neighbor_step_eq, hd k (List.mem_range.mp hk)]

/-- The evaluator depends on the dataset and the subset only through the
labels and the computed distances. -/
theorem loocv_congr (data data2 : List (List ℚ)) (S S2 : List Nat)
    (hlen : data.length = data2.length)
    (hlabel : ∀ i, i < data.length → label data i = label data2 i)
    (hd : ∀ i k, i < data.length → k < data.length →
      computed_distance data S i k = computed_distance data2 S2 i k) :
    leave_one_out_cross_validation data S = leave_one_out_cross_validation data2 S2 := by
  unfold leave_one_out_cross_validation
  rw [number_correctly_classified_eq, number_correctly_classified_eq, ← hlen]
  congr 3
  apply List.filter_congr
  intro i hi
  have hi2 : i < data.length := List.mem_range.mp hi
  unfold classified_correctly
  rw [nearest_neighbor_congr data data2 S S2 i hlen (fun k hk => hd i k hi2 hk)]
  cases hloc : (nearest_neighbor data2 S2 i).nearest_neighbor_location with
  | none => rfl
  | some m =>
    have hm : m < data.length := by
      have h := (nearest_upto_invariant data2 S2 i data2.length).2 m
        (by rw [← nearest_neighbor_eq_upto]; exact hloc)
      omega
    have h1 := hlabel i hi2
    have h2 := hlabel m hm
    unfold label at h1 h2
    simp only [h1, h2]

theorem nearest_neighbor_found (data : List (List ℚ)) (S : List Nat) (i : Nat)
    (h : ∃ k, k < data.length ∧ k ≠ i ∧ computed_distance data S i k ≠ none) :
    ∃ m, (nearest_neighbor data S i).nearest_neighbor_location = some m := by
  cases hloc : (nearest_neighbor data S i).nearest_neighbor_location with
  | some m => exact ⟨m, rfl⟩
  | none =>
    exfalso
    rw [nearest_neighbor_eq_upto] at hloc
    obtain ⟨k, hk, hki, hfin⟩ := h
    exact hfin (((nearest_upto_invariant data S i data.length).1 hloc).2 k hk hki)

theorem computed_distance_congr (data data2 : List (List ℚ)) (S : List Nat) (i k : Nat)
    (hi : ∀ f ∈ S, (data.getD i []).getD f 0 = (data2.getD i []).getD f 0)
    (hk : ∀ f ∈ S, (data.getD k []).getD f 0 = (data2.getD k []).getD f 0) :
    computed_distance data S i k = computed_distance data2 S i k := by
  unfold computed_distance computed_sum
  congr 1
  apply foldl_congr_mem
  intro d f hf
  rw [hi f hf, hk f hf]

/-- C2: on a non-empty dataset the evaluator returns `c / N` for an integer
count `c` with `0 ≤ c ≤ N`, hence a value in `[0, 1]`. -/
theorem loocv_in_unit_interval (data : List (List ℚ)) (S : List Nat)
    (_hrect : rectangular data) (hne : data ≠ []) (_hS : valid_subset data S)
    (_hSne : S ≠ []) :
    (∃ c : Nat, c ≤ data.length ∧
      leave_one_out_cross_validation data S = (c : ℚ) / (data.length : ℚ)) ∧
    0 ≤ leave_one_out_cross_validation data S ∧
    leave_one_out_cross_validation data S ≤ 1 := by
  have hpos : (0 : ℚ) < (data.length : ℚ) := by
    have : 0 < data.length := List.length_pos.mpr hne
    exact_mod_cast this
  have hle : (number_correctly_classified data S : ℚ) ≤ (data.length : ℚ) := by
    exact_mod_cast number_correctly_classified_le data S
  refine ⟨⟨number_correctly_classified data S, number_correctly_classified_le data S, rfl⟩,
    ?_, ?_⟩
  · unfold leave_one_out_cross_validation
    positivity
  · unfold leave_one_out_cross_validation
    rw [div_le_one hpos]
    exact hle

/-- Witness of C2 on the scenario dataset with the subset `{2}`. -/
theorem loocv_in_unit_interval_witness :
    (∃ c : Nat, c ≤ scenario.length ∧
      leave_one_out_cross_validation scenario [2] = (c : ℚ) / (scenario.length : ℚ)) ∧
    0 ≤ leave_one_out_cross_validation scenario [2] ∧
    leave_one_out_cross_validation scenario [2] ≤ 1 :=
  loocv_in_unit_interval scenario [2] (by decide) (by decide) (by decide) (by decide)

/-- Counterexample to C3 as stated: on the dataset `order_sensitive` the
permuted lists `[1, 2, 3, 4]` and `[2, 3, 4, 1]` get the accuracies 0 and 1/3.
Summed from the large square the distance from sample 0 to sample 1 rounds to
that to sample 2; summed from the small squares it does not. -/
theorem loocv_depends_on_order :
    rectangular order_sensitive ∧ valid_subset order_sensitive [1, 2, 3, 4] ∧
    double_dataset order_sensitive ∧
    List.Perm [1, 2, 3, 4] [2, 3, 4, 1] ∧
    computed_distance order_sensitive [1, 2, 3, 4] 0 1 =
      computed_distance order_sensitive [1, 2, 3, 4] 0 2 ∧
    dist_lt (computed_distance order_sensitive [2, 3, 4, 1] 0 2)
      (computed_distance order_sensitive [2, 3, 4, 1] 0 1) ∧
    leave_one_out_cross_validation order_sensitive [1, 2, 3, 4] = 0 ∧
    leave_one_out_cross_validation order_sensitive [2, 3, 4, 1] = 1 / 3 ∧
    leave_one_out_cross_validation order_sensitive [1, 2, 3, 4] ≠
      leave_one_out_cross_validation order_sensitive [2, 3, 4, 1] := by
  refine ⟨by decide, by decide, by decide!, by decide, by decide!, ?_, by decide!,
    by decide!, by decide!⟩
  have h1 : computed_distance order_sensitive [2, 3, 4, 1] 0 2 = some 134217728 := by
    decide!
  have h2 : computed_distance order_sensitive [2, 3, 4, 1] 0 1 =
      some (4503599627370497 / 33554432) := by decide!
  rw [h1, h2]
  simp only [dist_lt]
  norm_num

/-- C3 (amended): on a dataset on which, for both orders, every sum of
squared differences of lines 44-46 is computed without rounding error (the
computed sum is the exact sum), permuted lists of feature indices give the same
accuracy. -/
theorem loocv_perm_invariant_when_exact (data : List (List ℚ)) (S S2 : List Nat)
    (_hrect : rectangular data) (_hS : valid_subset data S) (hperm : S.Perm S2)
    (hexact : ∀ i, i < data.length → ∀ k, k < data.length →
      computed_sum data S i k = some (squared_distance data S i k))
    (hexact2 : ∀ i, i < data.length → ∀ k, k < data.length →
      computed_sum data S2 i k = some (squared_distance data S2 i k)) :
    leave_one_out_cross_validation data S = leave_one_out_cross_validation data S2 := by
  apply loocv_congr data data S S2 rfl (fun _ _ => rfl)
  intro i k hi hk
  unfold computed_distance
  rw [hexact i hi k hk, hexact2 i hi k hk]
  have hsum : squared_distance data S i k = squared_distance data S2 i k := by
    unfold squared_distance
    exact (hperm.map _).sum_eq
  rw [hsum]

/-- Witness of C3 (amended): the dataset `crossed`, whose sums of squares
are small integers, with the orders `[1, 2]` and `[2, 1]`. -/
theorem loocv_perm_invariant_when_exact_witness :
    leave_one_out_cross_validation crossed [1, 2] =
      leave_one_out_cross_validation crossed [2, 1] :=
  loocv_perm_invariant_when_exact crossed [1, 2] [2, 1] (by decide) (by decide)
    (List.Perm.swap 2 1 []) (by decide!) (by decide!)

/-- C4: two rectangular datasets of the same shape with the same label
column that agree on every column of the subset get the same accuracy, whatever
the values in the other columns. -/
theorem loocv_ignores_unselected (data data2 : List (List ℚ)) (S : List Nat)
    (_hrect : rectangular data) (_hrect2 : rectangular data2)
    (hlen : data.length = data2.length) (_hF : num_features data = num_features data2)
    (_hS : valid_subset data S)
    (hlabel : ∀ i, i < data.length → label data i = label data2 i)
    (hcols : ∀ i, i < data.length → ∀ f ∈ S,
      (data.getD i []).getD f 0 = (data2.getD i []).getD f 0) :
    leave_one_out_cross_validation data S = leave_one_out_cross_validation data2 S := by
  apply loocv_congr data data2 S S hlen hlabel
  intro i k hi hk
  exact computed_distance_congr data data2 S i k (hcols i hi) (hcols k hk)

/-- Witness of C4: the scenario dataset and a copy with other values of
feature 2, evaluated on the subset `{1}`. -/
theorem loocv_ignores_unselected_witness :
    leave_one_out_cross_validation scenario [1] =
      leave_one_out_cross_validation scenario_other_f2 [1] :=
  loocv_ignores_unselected scenario scenario_other_f2 [1] (by decide) (by decide)
    (by decide) (by decide) (by decide) (by decide!) (by decide!)

/-- C5: on the scenario dataset the evaluator returns 1 on `{1}` and a
value at most 1/2 on `{2}`; forward selection chooses feature 1 at level 1 with
accuracy 1 and reports `{1}` with accuracy 1 as the best overall subset. -/
theorem scenario_results :
    leave_one_out_cross_validation scenario [1] = 1 ∧
    leave_one_out_cross_validation scenario [2] ≤ 1 / 2 ∧
    (forward_scan scenario [] []).feature_to_add_at_this_level = some 1 ∧
    (forward_scan scenario [] []).best_so_far_accuracy = 1 ∧
    (forward_levels scenario 1).current_set_of_features = [1] ∧
    Event.was_best 1 1 ∈ (forward_levels scenario 1).output ∧
    (feature_search_demo scenario).best_feature_set = [1] ∧
    (feature_search_demo scenario).best_overall_accuracy = 1 := by
  decide!

/-! ## Lemmas on forward selection -/

theorem loocv_nonneg (data : List (List ℚ)) (S : List Nat) :
    0 ≤ leave_one_out_cross_validation data S := by
  unfold leave_one_out_cross_validation
  positivity

theorem forward_scan_eq_upto (data : List (List ℚ)) (current : List Nat)
    (output : List Event) :
    forward_scan data current output =
      forward_scan_upto data current output (num_features data) := rfl

theorem forward_scan_upto_succ (data : List (List ℚ)) (current : List Nat)
    (output : List Event) (n : Nat) :
    forward_scan_upto data current output (n + 1) =
      forward_candidate data current (forward_scan_upto data current output n) (1 + n) := by
  simp [forward_scan_upto, List.range'_1_concat, List.foldl_append]

theorem forward_scan_upto_invariant (data : List (List ℚ)) (current : List Nat)
    (output : List Event) (n : Nat) :
    (∀ j, 1 ≤ j → j ≤ n → j ∉ current →
      leave_one_out_cross_validation data (current ++ [j]) ≤
        (forward_scan_upto data current output n).best_so_far_accuracy) ∧
    ((forward_scan_upto data current output n).feature_to_add_at_this_level = none →
      (forward_scan_upto data current output n).best_so_far_accuracy = 0) ∧
    (∀ k, (forward_scan_upto data current output n).feature_to_add_at_this_level = some k →
      1 ≤ k ∧ k ≤ n ∧ k ∉ current ∧
      leave_one_out_cross_validation data (current ++ [k]) =
        (forward_scan_upto data current output n).best_so_far_accuracy ∧
      0 < (forward_scan_upto data current output n).best_so_far_accuracy ∧
      ∀ j, 1 ≤ j → j < k → j ∉ current →
        leave_one_out_cross_validation data (current ++ [j]) <
          leave_one_out_cross_validation data (current ++ [k])) := by
  induction n with
  | zero =>
    refine ⟨fun j h1 h2 => by omega, fun _ => rfl, fun k hk => ?_⟩
    simp [forward_scan_upto] at hk
  | succ n ih =>
    obtain ⟨ihA, ihC, ihD⟩ := ih
    have ihB : 0 ≤ (forward_scan_upto data current output n).best_so_far_accuracy := by
      cases hf : (forward_scan_upto data current output n).feature_to_add_at_this_level with
      | none => exact le_of_eq (ihC hf).symm
      | some k => exact le_of_lt (ihD k hf).2.2.2.2.1
    rw [forward_scan_upto_succ]
    unfold forward_candidate
    by_cases hmem : (1 + n) ∈ current
    · simp only [hmem, not_true_eq_false, if_false]
      refine ⟨fun j h1 h2 hj => ?_, ihC, fun k hk => ?_⟩
      · have hne : j ≠ 1 + n := fun h => hj (h ▸ hmem)
        exact ihA j h1 (by omega) hj
      · obtain ⟨a, b, c⟩ := ihD k hk
        exact ⟨a, by omega, c⟩
    · simp only [hmem, not_false_eq_true, if_true]
      by_cases hgt : leave_one_out_cross_validation data (current ++ [1 + n]) >
          (forward_scan_upto data current output n).best_so_far_accuracy
      · simp only [hgt, if_true]
        refine ⟨fun j h1 h2 hj => ?_, fun h => by simp at h, fun k hk => ?_⟩
        · by_cases hjn : j = 1 + n
          · rw [hjn]
          · exact le_trans (ihA j h1 (by omega) hj) (le_of_lt hgt)
        · simp only [Option.some.injEq] at hk
          subst hk
          refine ⟨by omega, by omega, hmem, rfl, lt_of_le_of_lt ihB hgt, fun j h1 h2 hj => ?_⟩
          exact lt_of_le_of_lt (ihA j h1 (by omega) hj) hgt
      · simp only [hgt, if_false]
        refine ⟨fun j h1 h2 hj => ?_, ihC, fun k hk => ?_⟩
        · by_cases hjn : j = 1 + n
          · rw [hjn]; exact not_lt.mp hgt
          · exact ihA j h1 (by omega) hj
        · obtain ⟨a, b, c⟩ := ihD k hk
          exact ⟨a, by omega, c⟩

theorem forward_scan_of_positive (data : List (List ℚ)) (current : List Nat)
    (output : List Event) (hpos : has_positive_candidate data current) :
    ∃ k, (forward_scan data current output).feature_to_add_at_this_level = some k ∧
      first_best_candidate data current k := by
  obtain ⟨hA, hC, hD⟩ := forward_scan_upto_invariant data current output (num_features data)
  rw [← forward_scan_eq_upto] at hA hC hD
  obtain ⟨j, hj, hjc, hjpos⟩ := hpos
  rw [List.mem_range'_1] at hj
  have hbest : 0 < (forward_scan data current output).best_so_far_accuracy :=
    lt_of_lt_of_le hjpos (hA j hj.1 (by omega) hjc)
  cases hf : (forward_scan data current output).feature_to_add_at_this_level with
  | none => exact absurd (hC hf) (ne_of_gt hbest)
  | some k =>
    obtain ⟨a, b, c, d, _, e⟩ := hD k hf
    refine ⟨k, rfl, ?_, c, fun i hi hic => ?_, fun i hi hic hik => ?_⟩
    · rw [List.mem_range'_1]; omega
    · rw [List.mem_range'_1] at hi
      rw [d]; exact hA i hi.1 (by omega) hic
    · rw [List.mem_range'_1] at hi
      exact e i hi.1 hik hic

theorem forward_scan_of_no_positive (data : List (List ℚ)) (current : List Nat)
    (output : List Event) (hpos : ¬ has_positive_candidate data current) :
    (forward_scan data current output).feature_to_add_at_this_level = none := by
  obtain ⟨_, _, hD⟩ := forward_scan_upto_invariant data current output (num_features data)
  rw [← forward_scan_eq_upto] at hD
  cases hf : (forward_scan data current output).feature_to_add_at_this_level with
  | none => rfl
  | some k =>
    exfalso
    obtain ⟨a, b, c, d, e, _⟩ := hD k hf
    exact hpos ⟨k, by rw [List.mem_range'_1]; omega, c, by rw [d]; exact e⟩

theorem forward_level_of_some (data : List (List ℚ)) (s : Search) (k : Nat)
    (hk : (forward_scan data s.current_set_of_features s.output).feature_to_add_at_this_level
      = some k) :
    (forward_level data s).current_set_of_features = s.current_set_of_features ++ [k] ∧
    (forward_level data s).best_overall_accuracy =
      max s.best_overall_accuracy
        (forward_scan data s.current_set_of_features s.output).best_so_far_accuracy := by
  unfold forward_level
  simp only [hk]
  by_cases hgt : (forward_scan data s.current_set_of_features s.output).best_so_far_accuracy >
      s.best_overall_accuracy
  · simp only [hgt, if_true, true_and]
    exact (max_eq_right (le_of_lt hgt)).symm
  · simp only [hgt, if_false, true_and]
    exact (max_eq_left (not_lt.mp hgt)).symm

theorem forward_level_of_none (data : List (List ℚ)) (s : Search)
    (hk : (forward_scan data s.current_set_of_features s.output).feature_to_add_at_this_level
      = none) :
    (forward_level data s).current_set_of_features = s.current_set_of_features ∧
    (forward_level data s).best_overall_accuracy = s.best_overall_accuracy ∧
    (forward_level data s).best_feature_set = s.best_feature_set := by
  unfold forward_level
  simp only [hk, and_self]

theorem forward_levels_succ (data : List (List ℚ)) (L : Nat) :
    forward_levels data (L + 1) = forward_level data (forward_levels data L) := by
  simp [forward_levels, List.range_succ, List.foldl_append]

theorem forward_level_best_ge (data : List (List ℚ)) (s : Search)
    (h0 : 0 ≤ s.best_overall_accuracy) :
    s.best_overall_accuracy ≤ (forward_level data s).best_overall_accuracy ∧
    (forward_scan data s.current_set_of_features s.output).best_so_far_accuracy ≤
      (forward_level data s).best_overall_accuracy := by
  cases hf : (forward_scan data s.current_set_of_features s.output).feature_to_add_at_this_level
    with
  | none =>
    have h1 := forward_level_of_none data s hf
    have h2 := (forward_scan_upto_invariant data s.current_set_of_features s.output
      (num_features data)).2.1
    rw [← forward_scan_eq_upto] at h2
    rw [h1.2.1, h2 hf]
    exact ⟨le_refl _, h0⟩
  | some k =>
    have h1 := forward_level_of_some data s k hf
    rw [h1.2]
    exact ⟨le_max_left _ _, le_max_right _ _⟩

theorem forward_levels_best_nonneg (data : List (List ℚ)) (L : Nat) :
    0 ≤ (forward_levels data L).best_overall_accuracy := by
  induction L with
  | zero => simp [forward_levels, forward_init]
  | succ L ih =>
    rw [forward_levels_succ]
    exact le_trans ih (forward_level_best_ge data _ ih).1

theorem forward_levels_best_mono (data : List (List ℚ)) (L M : Nat) (h : L ≤ M) :
    (forward_levels data L).best_overall_accuracy ≤
      (forward_levels data M).best_overall_accuracy := by
  induction M with
  | zero =>
    have : L = 0 := by omega
    rw [this]
  | succ M ih =>
    rcases Nat.lt_or_ge L (M + 1) with hlt | hge
    · rw [forward_levels_succ]
      exact le_trans (ih (by omega))
        (forward_level_best_ge data _ (forward_levels_best_nonneg data M)).1
    · have : L = M + 1 := by omega
      rw [this]

/-- The current subset of forward selection holds distinct features of
`[1, F]`. -/
theorem forward_levels_current_valid (data : List (List ℚ)) (L : Nat) :
    (forward_levels data L).current_set_of_features.Nodup ∧
    ∀ f ∈ (forward_levels data L).current_set_of_features,
      f ∈ List.range' 1 (num_features data) := by
  induction L with
  | zero => simp [forward_levels, forward_init]
  | succ L ih =>
    rw [forward_levels_succ]
    cases hf : (forward_scan data (forward_levels data L).current_set_of_features
        (forward_levels data L).output).feature_to_add_at_this_level with
    | none =>
      rw [(forward_level_of_none data _ hf).1]
      exact ih
    | some k =>
      rw [(forward_level_of_some data _ k hf).1]
      obtain ⟨a, b, c, _⟩ := (forward_scan_upto_invariant data
        (forward_levels data L).current_set_of_features (forward_levels data L).output
        (num_features data)).2.2 k (by rw [← forward_scan_eq_upto]; exact hf)
      refine ⟨?_, fun f hfm => ?_⟩
      · rw [List.nodup_append]
        refine ⟨ih.1, List.nodup_singleton k, ?_⟩
        intro x hx hxk
        simp only [List.mem_singleton] at hxk
        exact c (hxk ▸ hx)
      · rw [List.mem_append] at hfm
        rcases hfm with h | h
        · exact ih.2 f h
        · simp only [List.mem_singleton] at h
          rw [h, List.mem_range'_1]; omega

theorem forward_levels_zero (data : List (List ℚ)) :
    forward_levels data 0 = forward_init := rfl

theorem forward_levels_length (data : List (List ℚ)) (L : Nat)
    (hpos : ∀ l, l < L →
      has_positive_candidate data (forward_levels data l).current_set_of_features) :
    (forward_levels data L).current_set_of_features.length = L := by
  induction L with
  | zero => simp [forward_levels, forward_init]
  | succ L ih =>
    obtain ⟨k, hk, _⟩ := forward_scan_of_positive data
      (forward_levels data L).current_set_of_features (forward_levels data L).output
      (hpos L (by omega))
    rw [forward_levels_succ, (forward_level_of_some data _ k hk).1, List.length_append,
      ih (fun l hl => hpos l (by omega))]
    rfl

/-- A list of `F` distinct features of `[1, F]` is a permutation of the
full feature set. -/
theorem perm_full_of_valid (F : Nat) (S : List Nat) (hnd : S.Nodup)
    (hsub : ∀ f ∈ S, f ∈ List.range' 1 F) (hlen : S.length = F) :
    S.Perm (List.range' 1 F) := by
  apply (List.subperm_of_subset hnd hsub).perm_of_length_le
  rw [List.length_range', hlen]

theorem exists_unselected (F : Nat) (S : List Nat) (hlen : S.length < F) :
    ∃ k ∈ List.range' 1 F, k ∉ S := by
  by_contra hcon
  push_neg at hcon
  have h := (List.subperm_of_subset (List.nodup_range' 1 F) hcon).length_le
  rw [List.length_range'] at h
  omega

/-! ## Theorems on forward selection -/

/-- Counterexample to C6 as stated: on the dataset `crossed` the two
single-feature subsets tie at the maximal accuracy of level 1, feature 1 being
the smallest-indexed feature that attains it, yet level 1 adds no feature at
all. -/
theorem forward_tie_at_zero_chooses_nothing :
    rectangular crossed ∧ 2 ≤ crossed.length ∧ 1 ≤ num_features crossed ∧
    leave_one_out_cross_validation crossed [1] = leave_one_out_cross_validation crossed [2] ∧
    first_best_candidate crossed (forward_levels crossed 0).current_set_of_features 1 ∧
    (forward_scan crossed [] []).feature_to_add_at_this_level = none ∧
    ¬ ∃ k, (forward_levels crossed (0 + 1)).current_set_of_features =
        (forward_levels crossed 0).current_set_of_features ++ [k] ∧
      first_best_candidate crossed (forward_levels crossed 0).current_set_of_features k := by
  refine ⟨by decide, by decide, by decide, by decide!, by decide!, by decide!, ?_⟩
  rintro ⟨k, hk, _⟩
  have h1 : (forward_levels crossed (0 + 1)).current_set_of_features = [] := by decide!
  rw [h1] at hk
  simp at hk

/-- C6 (amended): at every level of forward selection at which some
candidate has accuracy above 0, the feature added to the current subset is the
smallest-indexed feature not yet in it whose candidate attains the maximum
accuracy among the candidates of the level. -/
theorem forward_adds_first_best_candidate (data : List (List ℚ))
    (_hrect : rectangular data) (_hN : 2 ≤ data.length) (_hF : 1 ≤ num_features data)
    (L : Nat) (_hL : L < num_features data)
    (hpos : has_positive_candidate data (forward_levels data L).current_set_of_features) :
    ∃ k, (forward_levels data (L + 1)).current_set_of_features =
        (forward_levels data L).current_set_of_features ++ [k] ∧
      first_best_candidate data (forward_levels data L).current_set_of_features k := by
  obtain ⟨k, hk, hbest⟩ := forward_scan_of_positive data
    (forward_levels data L).current_set_of_features (forward_levels data L).output hpos
  exact ⟨k, by rw [forward_levels_succ, (forward_level_of_some data _ k hk).1], hbest⟩

/-- Witness of C6 (amended): level 1 on the scenario dataset. -/
theorem forward_adds_first_best_candidate_witness :
    ∃ k, (forward_levels scenario (0 + 1)).current_set_of_features =
        (forward_levels scenario 0).current_set_of_features ++ [k] ∧
      first_best_candidate scenario (forward_levels scenario 0).current_set_of_features k :=
  forward_adds_first_best_candidate scenario (by decide) (by decide) (by decide) 0
    (by decide) (by decide!)

/-- Counterexample to C7 as stated: on the dataset `crossed` the current
subset is still empty after level 1 and after all `F = 2` levels. -/
theorem forward_size_can_stay :
    rectangular crossed ∧ 2 ≤ crossed.length ∧ 1 ≤ num_features crossed ∧
    num_features crossed = 2 ∧
    (forward_levels crossed 1).current_set_of_features.length = 0 ∧
    (feature_search_demo crossed).current_set_of_features = [] := by
  decide!

/-- C7 (amended): a level of forward selection at which some candidate has
accuracy above 0 adds exactly one feature, whether or not that accuracy improves
on the earlier levels; a level whose candidates all have accuracy 0 leaves the
current subset unchanged.  When every level up to `L` has a candidate of accuracy
above 0 the subset has exactly `L` elements after level `L`, and after `F` such
levels it is the full feature set. -/
theorem forward_size_grows_while_positive (data : List (List ℚ))
    (_hrect : rectangular data) (_hN : 2 ≤ data.length) (_hF : 1 ≤ num_features data) :
    (∀ L, has_positive_candidate data (forward_levels data L).current_set_of_features →
      (forward_levels data (L + 1)).current_set_of_features.length =
        (forward_levels data L).current_set_of_features.length + 1) ∧
    (∀ L, ¬ has_positive_candidate data (forward_levels data L).current_set_of_features →
      (forward_levels data (L + 1)).current_set_of_features =
        (forward_levels data L).current_set_of_features) ∧
    (∀ L, L ≤ num_features data →
      (∀ l, l < L →
        has_positive_candidate data (forward_levels data l).current_set_of_features) →
      (forward_levels data L).current_set_of_features.length = L) ∧
    ((∀ l, l < num_features data →
        has_positive_candidate data (forward_levels data l).current_set_of_features) →
      (feature_search_demo data).current_set_of_features.Perm
        (List.range' 1 (num_features data))) := by
  refine ⟨fun L hpos => ?_, fun L hpos => ?_, fun L _ hpos => forward_levels_length data L hpos,
    fun hpos => ?_⟩
  · obtain ⟨k, hk, _⟩ := forward_scan_of_positive data
      (forward_levels data L).current_set_of_features (forward_levels data L).output hpos
    rw [forward_levels_succ, (forward_level_of_some data _ k hk).1, List.length_append]
    rfl
  · rw [forward_levels_succ]
    exact (forward_level_of_none data _ (forward_scan_of_no_positive data _ _ hpos)).1
  · exact perm_full_of_valid (num_features data) _
      (forward_levels_current_valid data (num_features data)).1
      (forward_levels_current_valid data (num_features data)).2
      (forward_levels_length data (num_features data) hpos)

/-- Witness of C7 (amended): on the scenario dataset both levels have a
candidate of accuracy above 0 and the search ends with the full feature set. -/
theorem forward_size_grows_while_positive_witness :
    (feature_search_demo scenario).current_set_of_features.Perm
      (List.range' 1 (num_features scenario)) :=
  (forward_size_grows_while_positive scenario (by decide) (by decide) (by decide)).2.2.2
    (by decide!)

/-- C9: the best accuracy that forward selection reports is at least the
accuracy of every single feature alone. -/
theorem forward_best_ge_single_feature (data : List (List ℚ))
    (_hrect : rectangular data) (_hN : 2 ≤ data.length) (hF : 1 ≤ num_features data)
    (f : Nat) (hf1 : 1 ≤ f) (hfF : f ≤ num_features data) :
    leave_one_out_cross_validation data [f] ≤
      (feature_search_demo data).best_overall_accuracy := by
  have hA := (forward_scan_upto_invariant data [] [] (num_features data)).1 f hf1 hfF
    (List.not_mem_nil f)
  have hlv := (forward_level_best_ge data forward_init (le_refl _)).2
  have h1 : forward_levels data 1 = forward_level data forward_init := by
    rw [forward_levels_succ, forward_levels_zero]
  have hmono := forward_levels_best_mono data 1 (num_features data) hF
  rw [h1] at hmono
  exact le_trans hA (le_trans hlv hmono)

/-- Witness of C9: feature 2 on the scenario dataset. -/
theorem forward_best_ge_single_feature_witness :
    leave_one_out_cross_validation scenario [2] ≤
      (feature_search_demo scenario).best_overall_accuracy :=
  forward_best_ge_single_feature scenario (by decide) (by decide) (by decide) 2
    (by decide) (by decide)

/-! ## Lemmas on backward elimination -/

theorem backward_scan_eq_upto (data : List (List ℚ)) (current : List Nat)
    (output : List Event) :
    backward_scan data current output =
      backward_scan_upto data current output current.length := rfl

theorem backward_scan_upto_succ (data : List (List ℚ)) (current : List Nat)
    (output : List Event) (n : Nat) :
    backward_scan_upto data current output (n + 1) =
      backward_candidate data current (backward_scan_upto data current output n) n := by
  simp [backward_scan_upto, List.range_succ, List.foldl_append]

theorem backward_scan_upto_zero (data : List (List ℚ)) (current : List Nat)
    (output : List Event) :
    (backward_scan_upto data current output 0).feature_to_remove = none ∧
    (backward_scan_upto data current output 0).best_temp_set = current := by
  simp [backward_scan_upto]

theorem backward_scan_upto_invariant (data : List (List ℚ)) (current : List Nat)
    (output : List Event) (n : Nat) :
    ∃ i, i < n + 1 ∧
      (backward_scan_upto data current output (n + 1)).feature_to_remove = some i ∧
      (backward_scan_upto data current output (n + 1)).best_temp_set = current.eraseIdx i ∧
      (backward_scan_upto data current output (n + 1)).best_so_far_accuracy =
        leave_one_out_cross_validation data (current.eraseIdx i) ∧
      (∀ j, j < n + 1 →
        leave_one_out_cross_validation data (current.eraseIdx j) ≤
          leave_one_out_cross_validation data (current.eraseIdx i)) ∧
      (∀ j, j < i →
        leave_one_out_cross_validation data (current.eraseIdx j) <
          leave_one_out_cross_validation data (current.eraseIdx i)) := by
  induction n with
  | zero =>
    rw [backward_scan_upto_succ]
    unfold backward_candidate
    simp only [(backward_scan_upto_zero data current output).1, or_true, if_true]
    refine ⟨0, by omega, rfl, rfl, rfl, fun j hj => ?_, fun j hj => by omega⟩
    have : j = 0 := by omega
    rw [this]
  | succ n ih =>
    obtain ⟨i, hi, hf, ht, hb, hle, hlt⟩ := ih
    rw [backward_scan_upto_succ (n := n + 1)]
    unfold backward_candidate
    simp only [hf, hb, reduceCtorEq, or_false]
    by_cases hgt : leave_one_out_cross_validation data (current.eraseIdx (n + 1)) >
        leave_one_out_cross_validation data (current.eraseIdx i)
    · simp only [hgt, if_true]
      refine ⟨n + 1, by omega, rfl, rfl, rfl, fun j hj => ?_, fun j hj => ?_⟩
      · rcases Nat.lt_succ_iff_lt_or_eq.mp hj with h | h
        · exact le_trans (hle j h) (le_of_lt hgt)
        · rw [h]
      · exact lt_of_le_of_lt (hle j hj) hgt
    · simp only [hgt, if_false]
      refine ⟨i, by omega, rfl, ht, rfl, fun j hj => ?_, hlt⟩
      rcases Nat.lt_succ_iff_lt_or_eq.mp hj with h | h
      · exact hle j h
      · rw [h]; exact not_lt.mp hgt

theorem backward_level_current (data : List (List ℚ)) (s : Search) :
    (backward_level data s).current_set_of_features =
      (backward_scan data s.current_set_of_features s.output).best_temp_set := by
  unfold backward_level
  by_cases hgt : (backward_scan data s.current_set_of_features s.output).best_so_far_accuracy >
      s.best_overall_accuracy
  · simp only [hgt, if_true]
  · simp only [hgt, if_false]

theorem backward_level_removes (data : List (List ℚ)) (s : Search)
    (hne : s.current_set_of_features ≠ []) :
    ∃ i, i < s.current_set_of_features.length ∧
      (backward_level data s).current_set_of_features =
        s.current_set_of_features.eraseIdx i ∧
      (backward_level data s).current_set_of_features.length + 1 =
        s.current_set_of_features.length := by
  obtain ⟨n, hn⟩ : ∃ n, s.current_set_of_features.length = n + 1 :=
    ⟨s.current_set_of_features.length - 1, by
      have := List.length_pos.mpr hne
      omega⟩
  obtain ⟨i, hi, _, ht, _⟩ :=
    backward_scan_upto_invariant data s.current_set_of_features s.output n
  rw [← hn, ← backward_scan_eq_upto] at ht
  refine ⟨i, by omega, by rw [backward_level_current, ht], ?_⟩
  rw [backward_level_current, ht, List.length_eraseIdx_of_lt (by omega)]
  omega

theorem backward_loop_terminates (data : List (List ℚ)) (fuel : Nat) (s : Search)
    (hfuel : s.current_set_of_features.length ≤ fuel) :
    ∃ final, backward_loop data fuel s = some (final, s.current_set_of_features.length) ∧
      final.current_set_of_features = [] := by
  induction fuel generalizing s with
  | zero =>
    have h0 : s.current_set_of_features.length = 0 := by omega
    refine ⟨s, ?_, List.length_eq_zero.mp h0⟩
    simp [backward_loop, h0]
  | succ fuel ih =>
    by_cases hpos : s.current_set_of_features.length > 0
    · obtain ⟨i, _, _, hlen⟩ :=
        backward_level_removes data s (List.length_pos.mp hpos)
      obtain ⟨final, hrun, hfin⟩ := ih (backward_level data s) (by omega)
      refine ⟨final, ?_, hfin⟩
      simp only [backward_loop, hpos, if_true, hrun, Option.map_some', hlen]
    · have h0 : s.current_set_of_features.length = 0 := by omega
      refine ⟨s, ?_, List.length_eq_zero.mp h0⟩
      simp [backward_loop, h0]

/-! ## Theorems on backward elimination -/

/-- C8: backward elimination starts from the full set `[1..F]`; every
level removes exactly one feature from the current subset, whether or not the
accuracy improved; and the loop ends after exactly `F` levels with the current
subset empty. -/
theorem backward_removes_one_per_level (data : List (List ℚ))
    (_hrect : rectangular data) (_hN : 2 ≤ data.length) :
    (backward_init data).current_set_of_features = List.range' 1 (num_features data) ∧
    (∀ s : Search, s.current_set_of_features ≠ [] →
      ∃ i, i < s.current_set_of_features.length ∧
        (backward_level data s).current_set_of_features =
          s.current_set_of_features.eraseIdx i ∧
        (backward_level data s).current_set_of_features.length + 1 =
          s.current_set_of_features.length) ∧
    (∀ fuel, num_features data ≤ fuel →
      ∃ final, backward_elimination_demo data fuel = some (final, num_features data) ∧
        final.current_set_of_features = []) := by
  refine ⟨rfl, fun s hne => backward_level_removes data s hne, fun fuel hfuel => ?_⟩
  have hlen : (backward_init data).current_set_of_features.length = num_features data := by
    simp [backward_init]
  obtain ⟨final, hrun, hfin⟩ := backward_loop_terminates data fuel (backward_init data)
    (by omega)
  rw [hlen] at hrun
  exact ⟨final, hrun, hfin⟩

/-- Witness of C8: backward elimination on the scenario dataset ends after
its 2 levels with the current subset empty. -/
theorem backward_removes_one_per_level_witness :
    ∃ final, backward_elimination_demo scenario 2 = some (final, num_features scenario) ∧
      final.current_set_of_features = [] :=
  (backward_removes_one_per_level scenario (by decide) (by decide)).2.2 2 (by decide)

/-! ## Lemmas on the progress output and the reported best of forward selection -/

theorem forward_candidate_output (data : List (List ℚ)) (current : List Nat)
    (lv : ForwardLevel) (k : Nat) :
    (forward_candidate data current lv k).output =
      if k ∉ current then
        lv.output ++ [Event.using_features (current ++ [k])
          (leave_one_out_cross_validation data (current ++ [k]))]
      else lv.output := by
  unfold forward_candidate
  by_cases hk : k ∈ current
  · simp [hk]
  · by_cases hgt : leave_one_out_cross_validation data (current ++ [k]) >
        lv.best_so_far_accuracy
    · simp [hk, hgt]
    · simp [hk, hgt]

theorem forward_scan_upto_output (data : List (List ℚ)) (current : List Nat)
    (output : List Event) (n : Nat) :
    (forward_scan_upto data current output n).output =
      output ++ ((List.range' 1 n).filter (fun k => decide (k ∉ current))).map
        (fun k => Event.using_features (current ++ [k])
          (leave_one_out_cross_validation data (current ++ [k]))) := by
  induction n with
  | zero => simp [forward_scan_upto]
  | succ n ih =>
    rw [forward_scan_upto_succ, forward_candidate_output, ih, List.range'_1_concat,
      List.filter_append]
    by_cases hk : (1 + n) ∈ current
    · simp [hk]
    · simp [hk]

theorem forward_scan_output (data : List (List ℚ)) (current : List Nat)
    (output : List Event) :
    (forward_scan data current output).output = output ++ forward_events data current := by
  rw [forward_scan_eq_upto, forward_scan_upto_output]
  rfl

theorem mem_forward_events (data : List (List ℚ)) (current : List Nat) (S : List Nat)
    (a : ℚ) :
    Event.using_features S a ∈ forward_events data current ↔
      ∃ k ∈ List.range' 1 (num_features data), k ∉ current ∧ S = current ++ [k] ∧
        a = leave_one_out_cross_validation data (current ++ [k]) := by
  unfold forward_events
  simp only [List.mem_map, List.mem_filter, decide_eq_true_eq, Event.using_features.injEq]
  constructor
  · rintro ⟨k, ⟨hk, hkc⟩, hS, ha⟩
    exact ⟨k, hk, hkc, hS.symm, ha.symm⟩
  · rintro ⟨k, hk, hkc, hS, ha⟩
    exact ⟨k, ⟨hk, hkc⟩, hS.symm, ha.symm⟩

theorem mem_forward_level_output (data : List (List ℚ)) (s : Search) (S : List Nat)
    (a : ℚ) :
    Event.using_features S a ∈ (forward_level data s).output ↔
      Event.using_features S a ∈ s.output ∨
        Event.using_features S a ∈ forward_events data s.current_set_of_features := by
  unfold forward_level
  cases hf : (forward_scan data s.current_set_of_features s.output).feature_to_add_at_this_level
    with
  | none =>
    simp only [hf]
    simp [forward_scan_output]
  | some k =>
    simp only [hf]
    by_cases hgt :
        (forward_scan data s.current_set_of_features s.output).best_so_far_accuracy >
          s.best_overall_accuracy
    · simp only [hgt, if_true]
      simp [forward_scan_output]
    · simp only [hgt, if_false]
      simp [forward_scan_output]

theorem forward_level_best_set (data : List (List ℚ)) (s : Search) :
    ((forward_level data s).best_overall_accuracy = s.best_overall_accuracy ∧
      (forward_level data s).best_feature_set = s.best_feature_set) ∨
    (∃ k ∈ List.range' 1 (num_features data), k ∉ s.current_set_of_features ∧
      s.best_overall_accuracy < (forward_level data s).best_overall_accuracy ∧
      (forward_level data s).best_feature_set = s.current_set_of_features ++ [k] ∧
      (forward_level data s).best_overall_accuracy =
        leave_one_out_cross_validation data (s.current_set_of_features ++ [k])) := by
  cases hf : (forward_scan data s.current_set_of_features s.output).feature_to_add_at_this_level
    with
  | none =>
    left
    exact (forward_level_of_none data s hf).2
  | some k =>
    obtain ⟨a, b, c, d, _⟩ := (forward_scan_upto_invariant data s.current_set_of_features
      s.output (num_features data)).2.2 k (by rw [← forward_scan_eq_upto]; exact hf)
    rw [← forward_scan_eq_upto] at d
    unfold forward_level
    simp only [hf]
    by_cases hgt :
        (forward_scan data s.current_set_of_features s.output).best_so_far_accuracy >
          s.best_overall_accuracy
    · right
      simp only [hgt, if_true]
      exact ⟨k, by rw [List.mem_range'_1]; omega, c, trivial, rfl, d.symm⟩
    · left
      simp only [hgt, if_false, and_self]

/-- Every "Using feature(s)" line written by forward selection comes from a
candidate of some level: the current subset of that level plus one feature of
`[1, F]` not in it, with the accuracy of that candidate. -/
theorem forward_output_origin (data : List (List ℚ)) (L : Nat) (S : List Nat) (a : ℚ)
    (h : Event.using_features S a ∈ (forward_levels data L).output) :
    ∃ l, l < L ∧ ∃ k ∈ List.range' 1 (num_features data),
      k ∉ (forward_levels data l).current_set_of_features ∧
      S = (forward_levels data l).current_set_of_features ++ [k] ∧
      a = leave_one_out_cross_validation data S := by
  induction L with
  | zero => simp [forward_levels, forward_init] at h
  | succ L ih =>
    rw [forward_levels_succ, mem_forward_level_output] at h
    rcases h with h | h
    · obtain ⟨l, hl, rest⟩ := ih h
      exact ⟨l, by omega, rest⟩
    · rw [mem_forward_events] at h
      obtain ⟨k, hk, hkc, hS, ha⟩ := h
      exact ⟨L, by omega, k, hk, hkc, hS, by rw [hS]; exact ha⟩

theorem forward_output_mono (data : List (List ℚ)) (L M : Nat) (h : L ≤ M) (S : List Nat)
    (a : ℚ) (hm : Event.using_features S a ∈ (forward_levels data L).output) :
    Event.using_features S a ∈ (forward_levels data M).output := by
  induction M with
  | zero =>
    have : L = 0 := by omega
    rw [this] at hm; exact hm
  | succ M ih =>
    rcases Nat.lt_or_ge L (M + 1) with hlt | hge
    · rw [forward_levels_succ, mem_forward_level_output]
      exact Or.inl (ih (by omega))
    · have : L = M + 1 := by omega
      rw [this] at hm; exact hm

theorem forward_candidate_le_best (data : List (List ℚ)) (l M : Nat) (hl : l < M) (k : Nat)
    (hk : k ∈ List.range' 1 (num_features data))
    (hkc : k ∉ (forward_levels data l).current_set_of_features) :
    leave_one_out_cross_validation data
        ((forward_levels data l).current_set_of_features ++ [k]) ≤
      (forward_levels data M).best_overall_accuracy := by
  rw [List.mem_range'_1] at hk
  have hA := (forward_scan_upto_invariant data (forward_levels data l).current_set_of_features
    (forward_levels data l).output (num_features data)).1 k hk.1 (by omega) hkc
  rw [← forward_scan_eq_upto] at hA
  have hlv := (forward_level_best_ge data (forward_levels data l)
    (forward_levels_best_nonneg data l)).2
  rw [← forward_levels_succ] at hlv
  exact le_trans hA (le_trans hlv (forward_levels_best_mono data (l + 1) M hl))

/-- The reported best of forward selection is either the initial pair
(accuracy 0, empty subset) or the accuracy and the subset of a candidate whose
"Using feature(s)" line was written. -/
theorem forward_best_invariant (data : List (List ℚ)) (L : Nat) :
    ((forward_levels data L).best_overall_accuracy = 0 ∧
      (forward_levels data L).best_feature_set = []) ∨
    (0 < (forward_levels data L).best_overall_accuracy ∧
      (forward_levels data L).best_feature_set ≠ [] ∧
      (forward_levels data L).best_overall_accuracy =
        leave_one_out_cross_validation data (forward_levels data L).best_feature_set ∧
      Event.using_features (forward_levels data L).best_feature_set
        (forward_levels data L).best_overall_accuracy ∈ (forward_levels data L).output) := by
  induction L with
  | zero => left; simp [forward_levels, forward_init]
  | succ L ih =>
    rcases forward_level_best_set data (forward_levels data L) with ⟨h1, h2⟩ | h
    · rw [forward_levels_succ, h1, h2]
      rcases ih with ih | ⟨a, b, c, d⟩
      · exact Or.inl ih
      · exact Or.inr ⟨a, b, c, by
          rw [mem_forward_level_output]; exact Or.inl d⟩
    · obtain ⟨k, hk, hkc, hlt, hB, hbest⟩ := h
      right
      rw [forward_levels_succ]
      refine ⟨lt_of_le_of_lt (forward_levels_best_nonneg data L) hlt, ?_, ?_, ?_⟩
      · rw [hB]; simp
      · rw [hB]; exact hbest
      · rw [mem_forward_level_output, hB, hbest, mem_forward_events]
        exact Or.inr ⟨k, hk, hkc, rfl, rfl⟩

/-- Once a level of forward selection has no candidate of accuracy above 0,
the current subset, the best accuracy and the best subset stay as they are. -/
theorem forward_stalls (data : List (List ℚ)) (L : Nat)
    (hzero : ¬ has_positive_candidate data (forward_levels data L).current_set_of_features)
    (M : Nat) (hM : L ≤ M) :
    (forward_levels data M).current_set_of_features =
      (forward_levels data L).current_set_of_features ∧
    (forward_levels data M).best_overall_accuracy =
      (forward_levels data L).best_overall_accuracy ∧
    (forward_levels data M).best_feature_set = (forward_levels data L).best_feature_set := by
  induction M with
  | zero =>
    have : L = 0 := by omega
    subst this
    exact ⟨rfl, rfl, rfl⟩
  | succ M ih =>
    rcases Nat.lt_or_ge L (M + 1) with hlt | hge
    · obtain ⟨h1, h2, h3⟩ := ih (by omega)
      have hnone := forward_scan_of_no_positive data
        (forward_levels data M).current_set_of_features (forward_levels data M).output
        (by rw [h1]; exact hzero)
      obtain ⟨g1, g2, g3⟩ := forward_level_of_none data (forward_levels data M) hnone
      rw [forward_levels_succ, g1, g2, g3]
      exact ⟨h1, h2, h3⟩
    · have : L = M + 1 := by omega
      subst this
      exact ⟨rfl, rfl, rfl⟩

/-! ## Lemmas on the levels, the progress output and the reported best of backward elimination -/

theorem backward_levels_succ (data : List (List ℚ)) (l : Nat) :
    backward_levels data (l + 1) = backward_level data (backward_levels data l) := by
  unfold backward_levels
  exact Function.iterate_succ_apply' _ _ _

theorem backward_loop_eq_iterate (data : List (List ℚ)) (fuel : Nat) (s : Search)
    (hfuel : s.current_set_of_features.length ≤ fuel) :
    backward_loop data fuel s =
      some ((backward_level data)^[s.current_set_of_features.length] s,
        s.current_set_of_features.length) := by
  induction fuel generalizing s with
  | zero =>
    have h0 : s.current_set_of_features.length = 0 := by omega
    simp [backward_loop, h0]
  | succ fuel ih =>
    by_cases hpos : s.current_set_of_features.length > 0
    · obtain ⟨i, _, _, hlen⟩ := backward_level_removes data s (List.length_pos.mp hpos)
      have hrun := ih (backward_level data s) (by omega)
      simp only [backward_loop, hpos, if_true, hrun, Option.map_some', ← hlen,
        Function.iterate_succ_apply]
      simp
    · have h0 : s.current_set_of_features.length = 0 := by omega
      simp [backward_loop, h0]

theorem backward_demo_eq_levels (data : List (List ℚ)) (fuel : Nat)
    (hfuel : num_features data ≤ fuel) :
    backward_elimination_demo data fuel =
      some (backward_levels data (num_features data), num_features data) := by
  have hlen : (backward_init data).current_set_of_features.length = num_features data := by
    simp [backward_init]
  have h := backward_loop_eq_iterate data fuel (backward_init data) (by omega)
  rw [hlen] at h
  exact h

theorem backward_candidate_output (data : List (List ℚ)) (current : List Nat)
    (lv : BackwardLevel) (i : Nat) :
    (backward_candidate data current lv i).output =
      lv.output ++ [Event.using_features (current.eraseIdx i)
        (leave_one_out_cross_validation data (current.eraseIdx i))] := by
  unfold backward_candidate
  by_cases h : leave_one_out_cross_validation data (current.eraseIdx i) >
      lv.best_so_far_accuracy ∨ lv.feature_to_remove = none
  · simp only [h, if_true]
  · simp only [h, if_false]

theorem backward_scan_upto_output (data : List (List ℚ)) (current : List Nat)
    (output : List Event) (n : Nat) :
    (backward_scan_upto data current output n).output =
      output ++ (List.range n).map
        (fun i => Event.using_features (current.eraseIdx i)
          (leave_one_out_cross_validation data (current.eraseIdx i))) := by
  induction n with
  | zero => simp [backward_scan_upto]
  | succ n ih =>
    rw [backward_scan_upto_succ, backward_candidate_output, ih, List.range_succ]
    simp

theorem backward_scan_output (data : List (List ℚ)) (current : List Nat)
    (output : List Event) :
    (backward_scan data current output).output = output ++ backward_events data current := by
  rw [backward_scan_eq_upto, backward_scan_upto_output]
  rfl

theorem mem_backward_events (data : List (List ℚ)) (current : List Nat) (S : List Nat)
    (a : ℚ) :
    Event.using_features S a ∈ backward_events data current ↔
      ∃ i, i < current.length ∧ S = current.eraseIdx i ∧
        a = leave_one_out_cross_validation data (current.eraseIdx i) := by
  unfold backward_events
  simp only [List.mem_map, List.mem_range, Event.using_features.injEq]
  constructor
  · rintro ⟨i, hi, hS, ha⟩
    exact ⟨i, hi, hS.symm, ha.symm⟩
  · rintro ⟨i, hi, hS, ha⟩
    exact ⟨i, hi, hS.symm, ha.symm⟩

theorem mem_backward_level_output (data : List (List ℚ)) (s : Search) (S : List Nat)
    (a : ℚ) :
    Event.using_features S a ∈ (backward_level data s).output ↔
      Event.using_features S a ∈ s.output ∨
        Event.using_features S a ∈ backward_events data s.current_set_of_features := by
  unfold backward_level
  by_cases hgt :
      (backward_scan data s.current_set_of_features s.output).best_so_far_accuracy >
        s.best_overall_accuracy
  · simp only [hgt, if_true]
    simp [backward_scan_output]
  · simp only [hgt, if_false]
    simp [backward_scan_output]

/-- One level of backward elimination from a non-empty current subset: the
position removed is the first one whose removal attains the maximum accuracy of
the level, and the reported best changes only on strict improvement. -/
theorem backward_level_spec (data : List (List ℚ)) (s : Search)
    (hne : s.current_set_of_features ≠ []) :
    ∃ i, i < s.current_set_of_features.length ∧
      (backward_scan data s.current_set_of_features s.output).feature_to_remove = some i ∧
      (backward_scan data s.current_set_of_features s.output).best_so_far_accuracy =
        leave_one_out_cross_validation data (s.current_set_of_features.eraseIdx i) ∧
      (backward_level data s).current_set_of_features =
        s.current_set_of_features.eraseIdx i ∧
      (∀ j, j < s.current_set_of_features.length →
        leave_one_out_cross_validation data (s.current_set_of_features.eraseIdx j) ≤
          leave_one_out_cross_validation data (s.current_set_of_features.eraseIdx i)) ∧
      (∀ j, j < i →
        leave_one_out_cross_validation data (s.current_set_of_features.eraseIdx j) <
          leave_one_out_cross_validation data (s.current_set_of_features.eraseIdx i)) ∧
      (((backward_level data s).best_overall_accuracy = s.best_overall_accuracy ∧
          (backward_level data s).best_feature_set = s.best_feature_set ∧
          leave_one_out_cross_validation data (s.current_set_of_features.eraseIdx i) ≤
            s.best_overall_accuracy) ∨
        (s.best_overall_accuracy < (backward_level data s).best_overall_accuracy ∧
          (backward_level data s).best_overall_accuracy =
            leave_one_out_cross_validation data (s.current_set_of_features.eraseIdx i) ∧
          (backward_level data s).best_feature_set =
            s.current_set_of_features.eraseIdx i)) := by
  obtain ⟨n, hn⟩ : ∃ n, s.current_set_of_features.length = n + 1 :=
    ⟨s.current_set_of_features.length - 1, by
      have := List.length_pos.mpr hne
      omega⟩
  obtain ⟨i, hi, hf, ht, hb, hle, hlt⟩ :=
    backward_scan_upto_invariant data s.current_set_of_features s.output n
  rw [← hn, ← backward_scan_eq_upto] at hf ht hb
  refine ⟨i, by omega, hf, hb, by rw [backward_level_current, ht],
    fun j hj => hle j (by omega), hlt, ?_⟩
  unfold backward_level
  by_cases hgt :
      (backward_scan data s.current_set_of_features s.output).best_so_far_accuracy >
        s.best_overall_accuracy
  · right
    simp only [hgt, if_true]
    exact ⟨trivial, hb, ht⟩
  · left
    simp only [hgt, if_false, true_and]
    rw [← hb]
    exact not_lt.mp hgt

theorem backward_levels_zero (data : List (List ℚ)) :
    backward_levels data 0 = backward_init data := rfl

/-- The current subset of backward elimination after `l` levels holds
`F - l` features and is a sublist of `[1..F]`. -/
theorem backward_levels_current (data : List (List ℚ)) (l : Nat)
    (hl : l ≤ num_features data) :
    (backward_levels data l).current_set_of_features.length = num_features data - l ∧
    (backward_levels data l).current_set_of_features.Sublist
      (List.range' 1 (num_features data)) := by
  induction l with
  | zero => simp [backward_levels, backward_init]
  | succ l ih =>
    obtain ⟨hlen, hsub⟩ := ih (by omega)
    have hne : (backward_levels data l).current_set_of_features ≠ [] := by
      intro h
      rw [h] at hlen
      simp at hlen
      omega
    obtain ⟨i, hi, hcur, hlen2⟩ := backward_level_removes data (backward_levels data l) hne
    rw [backward_levels_succ]
    refine ⟨by omega, ?_⟩
    rw [hcur]
    exact (List.eraseIdx_sublist _ i).trans hsub

theorem backward_level_best_ge (data : List (List ℚ)) (s : Search) :
    s.best_overall_accuracy ≤ (backward_level data s).best_overall_accuracy := by
  unfold backward_level
  by_cases hgt :
      (backward_scan data s.current_set_of_features s.output).best_so_far_accuracy >
        s.best_overall_accuracy
  · simp only [hgt, if_true]
    exact le_of_lt hgt
  · simp only [hgt, if_false]
    exact le_refl _

theorem backward_levels_best_mono (data : List (List ℚ)) (l M : Nat) (h : l ≤ M) :
    (backward_levels data l).best_overall_accuracy ≤
      (backward_levels data M).best_overall_accuracy := by
  induction M with
  | zero =>
    have : l = 0 := by omega
    rw [this]
  | succ M ih =>
    rcases Nat.lt_or_ge l (M + 1) with hlt | hge
    · rw [backward_levels_succ]
      exact le_trans (ih (by omega)) (backward_level_best_ge data _)
    · have : l = M + 1 := by omega
      rw [this]

theorem backward_best_ge_full (data : List (List ℚ)) (M : Nat) :
    leave_one_out_cross_validation data (List.range' 1 (num_features data)) ≤
      (backward_levels data M).best_overall_accuracy :=
  backward_levels_best_mono data 0 M (Nat.zero_le M)

/-- Every "Using feature(s)" line written by backward elimination comes from
a candidate of some level: the current subset of that level with one position
erased, with the accuracy of that candidate. -/
theorem backward_output_origin (data : List (List ℚ)) (L : Nat) (S : List Nat) (a : ℚ)
    (h : Event.using_features S a ∈ (backward_levels data L).output) :
    ∃ l, l < L ∧ ∃ i, i < (backward_levels data l).current_set_of_features.length ∧
      S = (backward_levels data l).current_set_of_features.eraseIdx i ∧
      a = leave_one_out_cross_validation data S := by
  induction L with
  | zero => simp [backward_levels, backward_init] at h
  | succ L ih =>
    rw [backward_levels_succ, mem_backward_level_output] at h
    rcases h with h | h
    · obtain ⟨l, hl, rest⟩ := ih h
      exact ⟨l, by omega, rest⟩
    · rw [mem_backward_events] at h
      obtain ⟨i, hi, hS, ha⟩ := h
      exact ⟨L, by omega, i, hi, hS, by rw [hS]; exact ha⟩

theorem backward_candidate_le_best (data : List (List ℚ)) (l M : Nat) (hl : l < M) (i : Nat)
    (hi : i < (backward_levels data l).current_set_of_features.length) :
    leave_one_out_cross_validation data
        ((backward_levels data l).current_set_of_features.eraseIdx i) ≤
      (backward_levels data M).best_overall_accuracy := by
  have hne : (backward_levels data l).current_set_of_features ≠ [] := by
    intro h
    rw [h] at hi
    simp at hi
  obtain ⟨i0, _, _, _, _, hle, _, hbest⟩ := backward_level_spec data (backward_levels data l) hne
  have hstep : leave_one_out_cross_validation data
      ((backward_levels data l).current_set_of_features.eraseIdx i0) ≤
      (backward_levels data (l + 1)).best_overall_accuracy := by
    rw [backward_levels_succ]
    rcases hbest with ⟨h1, _, h3⟩ | ⟨_, h2, _⟩
    · rw [h1]; exact h3
    · rw [h2]
  exact le_trans (hle i hi) (le_trans hstep (backward_levels_best_mono data (l + 1) M hl))

/-- The reported best of backward elimination is the accuracy of the
reported best subset, which is the full set or a candidate whose "Using
feature(s)" line was written. -/
theorem backward_best_invariant (data : List (List ℚ)) (l : Nat)
    (hl : l ≤ num_features data) :
    (backward_levels data l).best_overall_accuracy =
      leave_one_out_cross_validation data (backward_levels data l).best_feature_set ∧
    ((backward_levels data l).best_feature_set = List.range' 1 (num_features data) ∨
      Event.using_features (backward_levels data l).best_feature_set
        (backward_levels data l).best_overall_accuracy ∈ (backward_levels data l).output) := by
  induction l with
  | zero => simp [backward_levels, backward_init]
  | succ l ih =>
    obtain ⟨ih1, ih2⟩ := ih (by omega)
    have hlen := (backward_levels_current data l (by omega)).1
    have hne : (backward_levels data l).current_set_of_features ≠ [] := by
      intro h
      rw [h] at hlen
      simp at hlen
      omega
    obtain ⟨i, hi, _, _, _, _, _, hbest⟩ :=
      backward_level_spec data (backward_levels data l) hne
    rw [backward_levels_succ]
    rcases hbest with ⟨h1, h2, _⟩ | ⟨_, h2, h3⟩
    · rw [h1, h2]
      refine ⟨ih1, ?_⟩
      rcases ih2 with h | h
      · exact Or.inl h
      · right
        rw [mem_backward_level_output]
        exact Or.inl h
    · rw [h2, h3]
      refine ⟨rfl, Or.inr ?_⟩
      rw [mem_backward_level_output, mem_backward_events]
      exact Or.inr ⟨i, hi, rfl, rfl⟩

/-! ## Theorems on the reported best of the two searches -/

/-- Counterexample to C10 as stated.  On the dataset `crossed` forward
selection reports the best accuracy 0 (no single feature classifies any sample
correctly, so no feature is ever added), below the accuracy 1/4 of the full
feature set.  On the dataset `order_trap` every level adds a feature, in the order
2, 3, 1, and the reported best accuracy is 1/4, below the accuracy 1/2 that the
evaluator returns on `[1, 2, 3]`. -/
theorem forward_best_below_full_set :
    (rectangular crossed ∧ 2 ≤ crossed.length ∧ 1 ≤ num_features crossed ∧
      (feature_search_demo crossed).best_overall_accuracy = 0 ∧
      leave_one_out_cross_validation crossed (List.range' 1 (num_features crossed)) = 1 / 4 ∧
      (feature_search_demo crossed).best_overall_accuracy <
        leave_one_out_cross_validation crossed (List.range' 1 (num_features crossed))) ∧
    (rectangular order_trap ∧ 2 ≤ order_trap.length ∧ 1 ≤ num_features order_trap ∧
      double_dataset order_trap ∧
      (∀ l, l < num_features order_trap - 1 →
        has_positive_candidate order_trap
          (forward_levels order_trap l).current_set_of_features) ∧
      (feature_search_demo order_trap).current_set_of_features = [2, 3, 1] ∧
      (feature_search_demo order_trap).best_overall_accuracy = 1 / 4 ∧
      leave_one_out_cross_validation order_trap [2, 3, 1] = 1 / 4 ∧
      leave_one_out_cross_validation order_trap
        (List.range' 1 (num_features order_trap)) = 1 / 2 ∧
      (feature_search_demo order_trap).best_overall_accuracy <
        leave_one_out_cross_validation order_trap
          (List.range' 1 (num_features order_trap))) := by
  refine ⟨by decide!, by decide, by decide, by decide, by decide!, by decide!, by decide!,
    by decide!, by decide!, by decide!, by decide!⟩

/-- C10 (amended): when every level before the last has a candidate of
accuracy above 0 (so that a feature is added at each of them), the last level
evaluates a list `P` of all `F` features, a permutation of `[1..F]` in the order
of their selection, and the best accuracy that forward selection reports is at
least the accuracy that the evaluator returns on `P`. -/
theorem forward_best_ge_last_candidate (data : List (List ℚ))
    (_hrect : rectangular data) (_hN : 2 ≤ data.length) (hF : 1 ≤ num_features data)
    (hpos : ∀ l, l < num_features data - 1 →
      has_positive_candidate data (forward_levels data l).current_set_of_features) :
    ∃ P : List Nat, P.Perm (List.range' 1 (num_features data)) ∧
      Event.using_features P (leave_one_out_cross_validation data P) ∈
        (feature_search_demo data).output ∧
      leave_one_out_cross_validation data P ≤
        (feature_search_demo data).best_overall_accuracy := by
  obtain ⟨M, hM⟩ : ∃ M, num_features data = M + 1 := ⟨num_features data - 1, by omega⟩
  have hlen := forward_levels_length data M (fun l hl => hpos l (by omega))
  obtain ⟨hnd, hsub⟩ := forward_levels_current_valid data M
  obtain ⟨k, hk, hkc⟩ := exists_unselected (num_features data)
    (forward_levels data M).current_set_of_features (by omega)
  have hperm : ((forward_levels data M).current_set_of_features ++ [k]).Perm
      (List.range' 1 (num_features data)) := by
    apply perm_full_of_valid
    · rw [List.nodup_append]
      refine ⟨hnd, List.nodup_singleton k, ?_⟩
      intro x hx hxk
      simp only [List.mem_singleton] at hxk
      exact hkc (hxk ▸ hx)
    · intro f hf
      rw [List.mem_append] at hf
      rcases hf with h | h
      · exact hsub f h
      · simp only [List.mem_singleton] at h
        rw [h]; exact hk
    · rw [List.length_append, hlen, hM]; rfl
  have hlev : forward_levels data (num_features data) =
      forward_level data (forward_levels data M) := by
    rw [hM, forward_levels_succ]
  refine ⟨(forward_levels data M).current_set_of_features ++ [k], hperm, ?_,
    forward_candidate_le_best data M (num_features data) (by omega) k hk hkc⟩
  unfold feature_search_demo
  rw [hlev, mem_forward_level_output, mem_forward_events]
  exact Or.inr ⟨k, hk, hkc, rfl, rfl⟩

/-- Witness of C10 (amended): the scenario dataset, whose level 1 has a
candidate of accuracy above 0. -/
theorem forward_best_ge_last_candidate_witness :
    ∃ P : List Nat, P.Perm (List.range' 1 (num_features scenario)) ∧
      Event.using_features P (leave_one_out_cross_validation scenario P) ∈
        (feature_search_demo scenario).output ∧
      leave_one_out_cross_validation scenario P ≤
        (feature_search_demo scenario).best_overall_accuracy :=
  forward_best_ge_last_candidate scenario (by decide) (by decide) (by decide) (by decide!)

/-- Counterexample to C11 as stated: on the dataset `masked` (N = 4, F = 3)
backward elimination reports the best accuracy 1/2, below the accuracy 1 of
feature 1 alone, a subset that it never evaluates. -/
theorem backward_best_below_single_feature :
    rectangular masked ∧ 2 ≤ masked.length ∧ 1 ≤ num_features masked ∧
    (backward_elimination_demo masked (num_features masked)).map
      (fun r => (r.1.best_overall_accuracy, r.2)) = some (1 / 2, 3) ∧
    leave_one_out_cross_validation masked [1] = 1 ∧
    (backward_levels masked (num_features masked)).best_overall_accuracy <
      leave_one_out_cross_validation masked [1] := by
  decide!

/-- C11 (amended): the best accuracy that backward elimination reports is
at least the accuracy of each of the two features alone that are left in the
current subset when it holds two features; hence, when `F ≤ 2`, at least the
accuracy of every single feature alone. -/
theorem backward_best_ge_last_two_features (data : List (List ℚ))
    (_hrect : rectangular data) (_hN : 2 ≤ data.length) (hF : 1 ≤ num_features data)
    (fuel : Nat) (hfuel : num_features data ≤ fuel) :
    ∃ final, backward_elimination_demo data fuel = some (final, num_features data) ∧
      (∀ l, l ≤ num_features data →
        (backward_levels data l).current_set_of_features.length = 2 →
        ∀ f ∈ (backward_levels data l).current_set_of_features,
          leave_one_out_cross_validation data [f] ≤ final.best_overall_accuracy) ∧
      (num_features data ≤ 2 → ∀ f, 1 ≤ f → f ≤ num_features data →
        leave_one_out_cross_validation data [f] ≤ final.best_overall_accuracy) := by
  have two : ∀ l, l ≤ num_features data →
      (backward_levels data l).current_set_of_features.length = 2 →
      ∀ f ∈ (backward_levels data l).current_set_of_features,
        leave_one_out_cross_validation data [f] ≤
          (backward_levels data (num_features data)).best_overall_accuracy := by
    intro l hl hlen f hf
    have hlt : l < num_features data := by
      have := (backward_levels_current data l hl).1
      omega
    have h0 := backward_candidate_le_best data l (num_features data) hlt 0 (by omega)
    have h1 := backward_candidate_le_best data l (num_features data) hlt 1 (by omega)
    match hc : (backward_levels data l).current_set_of_features, hlen with
    | [a, b], _ =>
      rw [hc] at h0 h1 hf
      simp only [List.mem_cons, List.mem_singleton, List.not_mem_nil, or_false] at hf
      rcases hf with h | h
      · rw [h]; exact h1
      · rw [h]; exact h0
  refine ⟨backward_levels data (num_features data), backward_demo_eq_levels data fuel hfuel,
    two, fun hF2 f hf1 hfF => ?_⟩
  rcases Nat.lt_or_ge (num_features data) 2 with h | h
  · have hF1 : num_features data = 1 := by omega
    have hfull := backward_best_ge_full data (num_features data)
    have hf : f = 1 := by omega
    have hr : List.range' 1 (num_features data) = [f] := by rw [hF1, hf]; rfl
    rw [hr] at hfull
    exact hfull
  · have hF2b : num_features data = 2 := by omega
    have hcur : (backward_levels data 0).current_set_of_features = [1, 2] := by
      rw [backward_levels_zero]
      simp only [backward_init, hF2b]
      rfl
    apply two 0 (by omega) (by rw [hcur]; rfl) f
    rw [hcur]
    have : f = 1 ∨ f = 2 := by omega
    rcases this with h | h
    · rw [h]; simp
    · rw [h]; simp

/-- Witness of C11 (amended): the scenario dataset with its two features. -/
theorem backward_best_ge_last_two_features_witness :
    ∃ final, backward_elimination_demo scenario 2 = some (final, num_features scenario) ∧
      (∀ l, l ≤ num_features scenario →
        (backward_levels scenario l).current_set_of_features.length = 2 →
        ∀ f ∈ (backward_levels scenario l).current_set_of_features,
          leave_one_out_cross_validation scenario [f] ≤ final.best_overall_accuracy) ∧
      (num_features scenario ≤ 2 → ∀ f, 1 ≤ f → f ≤ num_features scenario →
        leave_one_out_cross_validation scenario [f] ≤ final.best_overall_accuracy) :=
  backward_best_ge_last_two_features scenario (by decide) (by decide) (by decide) 2
    (by decide)

/-- C15: the best accuracy that each search reports is the maximum of the
accuracies of the subsets that the search evaluated: for forward selection the
candidates of all levels, for backward elimination the full feature set and the
candidates of all levels. -/
theorem reported_best_is_max_evaluated (data : List (List ℚ))
    (_hrect : rectangular data) (_hN : 2 ≤ data.length) (hF : 1 ≤ num_features data)
    (fuel : Nat) (hfuel : num_features data ≤ fuel) :
    ((∀ S a, Event.using_features S a ∈ (feature_search_demo data).output →
        a = leave_one_out_cross_validation data S ∧
        a ≤ (feature_search_demo data).best_overall_accuracy) ∧
      (∃ S a, Event.using_features S a ∈ (feature_search_demo data).output ∧
        a = (feature_search_demo data).best_overall_accuracy)) ∧
    (∃ final, backward_elimination_demo data fuel = some (final, num_features data) ∧
      leave_one_out_cross_validation data (List.range' 1 (num_features data)) ≤
        final.best_overall_accuracy ∧
      (∀ S a, Event.using_features S a ∈ final.output →
        a = leave_one_out_cross_validation data S ∧ a ≤ final.best_overall_accuracy) ∧
      (final.best_overall_accuracy =
          leave_one_out_cross_validation data (List.range' 1 (num_features data)) ∨
        ∃ S a, Event.using_features S a ∈ final.output ∧
          a = final.best_overall_accuracy)) := by
  have hfwd : ∀ S a, Event.using_features S a ∈ (feature_search_demo data).output →
      a = leave_one_out_cross_validation data S ∧
      a ≤ (feature_search_demo data).best_overall_accuracy := by
    intro S a h
    obtain ⟨l, hl, k, hk, hkc, hS, ha⟩ := forward_output_origin data (num_features data) S a h
    refine ⟨ha, ?_⟩
    rw [ha, hS]
    exact forward_candidate_le_best data l (num_features data) hl k hk hkc
  refine ⟨⟨hfwd, ?_⟩, backward_levels data (num_features data),
    backward_demo_eq_levels data fuel hfuel, backward_best_ge_full data _, ?_, ?_⟩
  · rcases forward_best_invariant data (num_features data) with ⟨h0, _⟩ | ⟨_, _, _, hmem⟩
    · have h1 : Event.using_features [1] (leave_one_out_cross_validation data [1]) ∈
          (forward_levels data 1).output := by
        rw [forward_levels_succ, mem_forward_level_output, mem_forward_events]
        right
        exact ⟨1, by rw [List.mem_range'_1]; omega, by simp [forward_levels, forward_init],
          by simp [forward_levels, forward_init], by simp [forward_levels, forward_init]⟩
      have hF1 := forward_output_mono data 1 (num_features data) hF _ _ h1
      refine ⟨[1], _, hF1, ?_⟩
      have hle := (hfwd _ _ hF1).2
      unfold feature_search_demo at hle ⊢
      rw [h0] at hle ⊢
      exact le_antisymm hle (loocv_nonneg data [1])
    · exact ⟨_, _, hmem, rfl⟩
  · intro S a h
    obtain ⟨l, hl, i, hi, hS, ha⟩ := backward_output_origin data (num_features data) S a h
    refine ⟨ha, ?_⟩
    rw [ha, hS]
    exact backward_candidate_le_best data l (num_features data) hl i hi
  · obtain ⟨h1, h2⟩ := backward_best_invariant data (num_features data) (le_refl _)
    rcases h2 with h | h
    · left; rw [h1, h]
    · right; exact ⟨_, _, h, rfl⟩

/-- Witness of C15: the scenario dataset. -/
theorem reported_best_is_max_evaluated_witness :
    ((∀ S a, Event.using_features S a ∈ (feature_search_demo scenario).output →
        a = leave_one_out_cross_validation scenario S ∧
        a ≤ (feature_search_demo scenario).best_overall_accuracy) ∧
      (∃ S a, Event.using_features S a ∈ (feature_search_demo scenario).output ∧
        a = (feature_search_demo scenario).best_overall_accuracy)) ∧
    (∃ final, backward_elimination_demo scenario 2 = some (final, num_features scenario) ∧
      leave_one_out_cross_validation scenario (List.range' 1 (num_features scenario)) ≤
        final.best_overall_accuracy ∧
      (∀ S a, Event.using_features S a ∈ final.output →
        a = leave_one_out_cross_validation scenario S ∧ a ≤ final.best_overall_accuracy) ∧
      (final.best_overall_accuracy =
          leave_one_out_cross_validation scenario (List.range' 1 (num_features scenario)) ∨
        ∃ S a, Event.using_features S a ∈ final.output ∧
          a = final.best_overall_accuracy)) :=
  reported_best_is_max_evaluated scenario (by decide) (by decide) (by decide) 2 (by decide)

theorem backward_level_removing_event (data : List (List ℚ)) (s : Search) (i : Nat)
    (hf : (backward_scan data s.current_set_of_features s.output).feature_to_remove = some i) :
    Event.removing (s.current_set_of_features.getD i 0)
        (backward_scan data s.current_set_of_features s.output).best_so_far_accuracy ∈
      (backward_level data s).output := by
  unfold backward_level
  by_cases hgt :
      (backward_scan data s.current_set_of_features s.output).best_so_far_accuracy >
        s.best_overall_accuracy
  · simp only [hgt, if_true, hf, removed_feature]
    simp
  · simp only [hgt, if_false, hf, removed_feature]
    simp

/-- C16: at every level of backward elimination the position removed is
the lowest position of the current subset whose removal attains the maximum
accuracy among the candidates of the level, and the new current subset is the
current subset with exactly that position erased. -/
theorem backward_removes_first_best (data : List (List ℚ))
    (_hrect : rectangular data) (_hN : 2 ≤ data.length) (_hF : 1 ≤ num_features data)
    (s : Search) (hne : s.current_set_of_features ≠ []) :
    ∃ i, i < s.current_set_of_features.length ∧
      (backward_scan data s.current_set_of_features s.output).feature_to_remove = some i ∧
      (∀ j, j < s.current_set_of_features.length →
        leave_one_out_cross_validation data (s.current_set_of_features.eraseIdx j) ≤
          leave_one_out_cross_validation data (s.current_set_of_features.eraseIdx i)) ∧
      (∀ j, j < i →
        leave_one_out_cross_validation data (s.current_set_of_features.eraseIdx j) <
          leave_one_out_cross_validation data (s.current_set_of_features.eraseIdx i)) ∧
      (backward_level data s).current_set_of_features =
        s.current_set_of_features.eraseIdx i ∧
      Event.removing (s.current_set_of_features.getD i 0)
          (leave_one_out_cross_validation data (s.current_set_of_features.eraseIdx i)) ∈
        (backward_level data s).output := by
  obtain ⟨i, hi, hf, hb, hcur, hle, hlt, _⟩ := backward_level_spec data s hne
  refine ⟨i, hi, hf, hle, hlt, hcur, ?_⟩
  rw [← hb]
  exact backward_level_removing_event data s i hf

/-- Witness of C16: the first level of backward elimination on the
scenario dataset. -/
theorem backward_removes_first_best_witness :
    ∃ i, i < (backward_init scenario).current_set_of_features.length ∧
      (backward_scan scenario (backward_init scenario).current_set_of_features
        (backward_init scenario).output).feature_to_remove = some i ∧
      (∀ j, j < (backward_init scenario).current_set_of_features.length →
        leave_one_out_cross_validation scenario
            ((backward_init scenario).current_set_of_features.eraseIdx j) ≤
          leave_one_out_cross_validation scenario
            ((backward_init scenario).current_set_of_features.eraseIdx i)) ∧
      (∀ j, j < i →
        leave_one_out_cross_validation scenario
            ((backward_init scenario).current_set_of_features.eraseIdx j) <
          leave_one_out_cross_validation scenario
            ((backward_init scenario).current_set_of_features.eraseIdx i)) ∧
      (backward_level scenario (backward_init scenario)).current_set_of_features =
        (backward_init scenario).current_set_of_features.eraseIdx i ∧
      Event.removing ((backward_init scenario).current_set_of_features.getD i 0)
          (leave_one_out_cross_validation scenario
            ((backward_init scenario).current_set_of_features.eraseIdx i)) ∈
        (backward_level scenario (backward_init scenario)).output :=
  backward_removes_first_best scenario (by decide) (by decide) (by decide)
    (backward_init scenario) (by decide)

/-- Counterexample to C18 as stated: on the dataset `crossed` forward
selection reports the empty subset with accuracy 0, while the evaluator returns
1/2 on the empty subset. -/
theorem forward_reports_inconsistent_pair :
    rectangular crossed ∧ 2 ≤ crossed.length ∧ 1 ≤ num_features crossed ∧
    (feature_search_demo crossed).best_feature_set = [] ∧
    (feature_search_demo crossed).best_overall_accuracy = 0 ∧
    leave_one_out_cross_validation crossed (feature_search_demo crossed).best_feature_set =
      1 / 2 ∧
    (feature_search_demo crossed).best_overall_accuracy ≠
      leave_one_out_cross_validation crossed (feature_search_demo crossed).best_feature_set := by
  decide!

/-- C18 (amended): the best accuracy that backward elimination reports is
the accuracy of the best subset it reports.  Forward selection reports either a
non-empty best subset, evaluated as a candidate, with an accuracy above 0 that is
the accuracy of that subset, or, when no candidate that it evaluated had an
accuracy above 0, the empty subset with its initial accuracy 0. -/
theorem reported_pair_consistent (data : List (List ℚ))
    (_hrect : rectangular data) (_hN : 2 ≤ data.length) (_hF : 1 ≤ num_features data)
    (fuel : Nat) (hfuel : num_features data ≤ fuel) :
    (((feature_search_demo data).best_overall_accuracy = 0 ∧
        (feature_search_demo data).best_feature_set = [] ∧
        ∀ S a, Event.using_features S a ∈ (feature_search_demo data).output → a = 0) ∨
      (0 < (feature_search_demo data).best_overall_accuracy ∧
        (feature_search_demo data).best_feature_set ≠ [] ∧
        (feature_search_demo data).best_overall_accuracy =
          leave_one_out_cross_validation data (feature_search_demo data).best_feature_set ∧
        Event.using_features (feature_search_demo data).best_feature_set
          (feature_search_demo data).best_overall_accuracy ∈
            (feature_search_demo data).output)) ∧
    (∃ final, backward_elimination_demo data fuel = some (final, num_features data) ∧
      final.best_overall_accuracy =
        leave_one_out_cross_validation data final.best_feature_set) := by
  refine ⟨?_, backward_levels data (num_features data),
    backward_demo_eq_levels data fuel hfuel,
    (backward_best_invariant data (num_features data) (le_refl _)).1⟩
  unfold feature_search_demo
  rcases forward_best_invariant data (num_features data) with ⟨h0, hB⟩ | h
  · refine Or.inl ⟨h0, hB, fun S a hmem => ?_⟩
    obtain ⟨l, hl, k, hk, hkc, hS, ha⟩ :=
      forward_output_origin data (num_features data) S a hmem
    have hle := forward_candidate_le_best data l (num_features data) hl k hk hkc
    rw [← hS, ← ha, h0] at hle
    have hge : 0 ≤ a := by rw [ha]; exact loocv_nonneg data S
    exact le_antisymm hle hge
  · exact Or.inr h

/-- Witness of C18 (amended): the scenario dataset. -/
theorem reported_pair_consistent_witness :
    (((feature_search_demo scenario).best_overall_accuracy = 0 ∧
        (feature_search_demo scenario).best_feature_set = [] ∧
        ∀ S a, Event.using_features S a ∈ (feature_search_demo scenario).output → a = 0) ∨
      (0 < (feature_search_demo scenario).best_overall_accuracy ∧
        (feature_search_demo scenario).best_feature_set ≠ [] ∧
        (feature_search_demo scenario).best_overall_accuracy =
          leave_one_out_cross_validation scenario
            (feature_search_demo scenario).best_feature_set ∧
        Event.using_features (feature_search_demo scenario).best_feature_set
          (feature_search_demo scenario).best_overall_accuracy ∈
            (feature_search_demo scenario).output)) ∧
    (∃ final, backward_elimination_demo scenario 2 = some (final, num_features scenario) ∧
      final.best_overall_accuracy =
        leave_one_out_cross_validation scenario final.best_feature_set) :=
  reported_pair_consistent scenario (by decide) (by decide) (by decide) 2 (by decide)

/-! ## Theorems on the subsets handed to the evaluator and on stalled levels -/

theorem safe_of_sublist_full (data : List (List ℚ)) (hrect : rectangular data) (S : List Nat)
    (h : S.Sublist (List.range' 1 (num_features data))) : safe_subset data S := by
  have hv : valid_subset data S := by
    intro f hf
    have := h.subset hf
    rw [List.mem_range'_1] at this
    omega
  refine ⟨h.nodup (List.nodup_range' 1 (num_features data)), hv, fun row hrow f hf => ?_⟩
  rw [hrect row hrow]
  have := (hv f hf).2
  omega

theorem safe_of_forward_candidate (data : List (List ℚ)) (hrect : rectangular data) (l k : Nat)
    (hk : k ∈ List.range' 1 (num_features data))
    (hkc : k ∉ (forward_levels data l).current_set_of_features) :
    safe_subset data ((forward_levels data l).current_set_of_features ++ [k]) := by
  obtain ⟨hnd, hsub⟩ := forward_levels_current_valid data l
  have hv : valid_subset data ((forward_levels data l).current_set_of_features ++ [k]) := by
    intro f hf
    rw [List.mem_append] at hf
    have hm : f ∈ List.range' 1 (num_features data) := by
      rcases hf with h | h
      · exact hsub f h
      · simp only [List.mem_singleton] at h
        rw [h]; exact hk
    rw [List.mem_range'_1] at hm
    omega
  refine ⟨?_, hv, fun row hrow f hf => ?_⟩
  · rw [List.nodup_append]
    refine ⟨hnd, List.nodup_singleton k, ?_⟩
    intro x hx hxk
    simp only [List.mem_singleton] at hxk
    exact hkc (hxk ▸ hx)
  · rw [hrect row hrow]
    have := (hv f hf).2
    omega

/-- C19: every list that the two searches hand to the evaluator holds
distinct indices of `[1, F]`, all of them positions of every row; the current
subset of backward elimination is always a strictly ascending sublist of
`[1..F]`; and `feature_to_remove` is a position of the current subset. -/
theorem searches_pass_safe_subsets (data : List (List ℚ))
    (hrect : rectangular data) (_hN : 1 ≤ data.length)
    (fuel : Nat) (hfuel : num_features data ≤ fuel) :
    (∀ S a, Event.using_features S a ∈ (feature_search_demo data).output →
      safe_subset data S) ∧
    safe_subset data (backward_init data).current_set_of_features ∧
    (∃ final, backward_elimination_demo data fuel = some (final, num_features data) ∧
      ∀ S a, Event.using_features S a ∈ final.output → safe_subset data S) ∧
    (∀ l, l ≤ num_features data →
      (backward_levels data l).current_set_of_features.Sublist
        (List.range' 1 (num_features data)) ∧
      (backward_levels data l).current_set_of_features.Pairwise (fun x y => x < y)) ∧
    (∀ l, l < num_features data →
      ∃ i, (backward_scan data (backward_levels data l).current_set_of_features
          (backward_levels data l).output).feature_to_remove = some i ∧
        i < (backward_levels data l).current_set_of_features.length) := by
  refine ⟨fun S a h => ?_, ?_, ⟨backward_levels data (num_features data),
    backward_demo_eq_levels data fuel hfuel, fun S a h => ?_⟩, fun l hl => ?_, fun l hl => ?_⟩
  · obtain ⟨l, _, k, hk, hkc, hS, _⟩ := forward_output_origin data (num_features data) S a h
    rw [hS]
    exact safe_of_forward_candidate data hrect l k hk hkc
  · exact safe_of_sublist_full data hrect _ (List.Sublist.refl _)
  · obtain ⟨l, hl, i, _, hS, _⟩ := backward_output_origin data (num_features data) S a h
    rw [hS]
    exact safe_of_sublist_full data hrect _
      ((List.eraseIdx_sublist _ i).trans (backward_levels_current data l (by omega)).2)
  · have hsub := (backward_levels_current data l hl).2
    exact ⟨hsub, (List.pairwise_lt_range' 1 (num_features data)).sublist hsub⟩
  · have hlen := (backward_levels_current data l (by omega)).1
    have hne : (backward_levels data l).current_set_of_features ≠ [] := by
      intro h
      rw [h] at hlen
      simp at hlen
      omega
    obtain ⟨i, hi, hf, _⟩ := backward_level_spec data (backward_levels data l) hne
    exact ⟨i, hf, hi⟩

/-- Witness of C19: the scenario dataset. -/
theorem searches_pass_safe_subsets_witness :
    (∀ S a, Event.using_features S a ∈ (feature_search_demo scenario).output →
      safe_subset scenario S) ∧
    safe_subset scenario (backward_init scenario).current_set_of_features ∧
    (∃ final, backward_elimination_demo scenario 2 = some (final, num_features scenario) ∧
      ∀ S a, Event.using_features S a ∈ final.output → safe_subset scenario S) ∧
    (∀ l, l ≤ num_features scenario →
      (backward_levels scenario l).current_set_of_features.Sublist
        (List.range' 1 (num_features scenario)) ∧
      (backward_levels scenario l).current_set_of_features.Pairwise (fun x y => x < y)) ∧
    (∀ l, l < num_features scenario →
      ∃ i, (backward_scan scenario (backward_levels scenario l).current_set_of_features
          (backward_levels scenario l).output).feature_to_remove = some i ∧
        i < (backward_levels scenario l).current_set_of_features.length) :=
  searches_pass_safe_subsets scenario (by decide) (by decide) 2 (by decide)

/-- C20: when every candidate of a level of forward selection has accuracy
exactly 0, the level adds no feature, and the current subset, the best accuracy
and the best subset stay unchanged through all later levels, each of which
evaluates the same candidates again; in particular, when every single feature
alone has accuracy 0 the search reports the empty subset with accuracy 0. -/
theorem forward_stalls_on_zero_level (data : List (List ℚ))
    (_hrect : rectangular data) (_hN : 2 ≤ data.length) (_hF : 1 ≤ num_features data) :
    (∀ L, L < num_features data →
      (∀ k ∈ List.range' 1 (num_features data),
        k ∉ (forward_levels data L).current_set_of_features →
        leave_one_out_cross_validation data
          ((forward_levels data L).current_set_of_features ++ [k]) = 0) →
      (forward_scan data (forward_levels data L).current_set_of_features
        (forward_levels data L).output).feature_to_add_at_this_level = none ∧
      ∀ M, L ≤ M →
        (forward_levels data M).current_set_of_features =
          (forward_levels data L).current_set_of_features ∧
        (forward_levels data M).best_overall_accuracy =
          (forward_levels data L).best_overall_accuracy ∧
        (forward_levels data M).best_feature_set = (forward_levels data L).best_feature_set ∧
        (forward_levels data (M + 1)).output =
          (forward_levels data M).output ++
            forward_events data (forward_levels data L).current_set_of_features) ∧
    ((∀ f ∈ List.range' 1 (num_features data), leave_one_out_cross_validation data [f] = 0) →
      (feature_search_demo data).current_set_of_features = [] ∧
      (feature_search_demo data).best_feature_set = [] ∧
      (feature_search_demo data).best_overall_accuracy = 0) := by
  have key : ∀ L,
      (∀ k ∈ List.range' 1 (num_features data),
        k ∉ (forward_levels data L).current_set_of_features →
        leave_one_out_cross_validation data
          ((forward_levels data L).current_set_of_features ++ [k]) = 0) →
      ¬ has_positive_candidate data (forward_levels data L).current_set_of_features := by
    intro L hzero hpos
    obtain ⟨j, hj, hjc, hjpos⟩ := hpos
    rw [hzero j hj hjc] at hjpos
    exact lt_irrefl _ hjpos
  refine ⟨fun L _ hzero => ⟨forward_scan_of_no_positive data _ _ (key L hzero),
    fun M hM => ?_⟩, fun hzero => ?_⟩
  · obtain ⟨h1, h2, h3⟩ := forward_stalls data L (key L hzero) M hM
    refine ⟨h1, h2, h3, ?_⟩
    have hnone := forward_scan_of_no_positive data
      (forward_levels data M).current_set_of_features (forward_levels data M).output
      (by rw [h1]; exact key L hzero)
    have hout : (forward_level data (forward_levels data M)).output =
        (forward_levels data M).output ++
          forward_events data (forward_levels data M).current_set_of_features := by
      unfold forward_level
      simp only [hnone]
      exact forward_scan_output data _ _
    rw [forward_levels_succ, hout, h1]
  · have h0 := forward_stalls data 0 (key 0 (fun k hk _ => by
      simpa [forward_levels, forward_init] using hzero k hk)) (num_features data)
      (Nat.zero_le _)
    unfold feature_search_demo
    rw [h0.1, h0.2.1, h0.2.2]
    simp [forward_levels, forward_init]

/-- Witness of C20: on the dataset `crossed` every single feature alone has
accuracy 0 and forward selection reports the empty subset with accuracy 0. -/
theorem forward_stalls_on_zero_level_witness :
    (feature_search_demo crossed).current_set_of_features = [] ∧
    (feature_search_demo crossed).best_feature_set = [] ∧
    (feature_search_demo crossed).best_overall_accuracy = 0 :=
  (forward_stalls_on_zero_level crossed (by decide) (by decide) (by decide)).2 (by decide!)

/-! ## Theorems on the degenerate inputs of the evaluator and the searches -/

/-- Counterexample to C12 as stated: on the dataset `labels_only` (N = 2,
F = 0) forward selection reports accuracy 0, while the evaluator returns 1 on the
empty subset. -/
theorem forward_empty_space_reports_zero :
    rectangular labels_only ∧ 2 ≤ labels_only.length ∧ num_features labels_only = 0 ∧
    (feature_search_demo labels_only).best_feature_set = [] ∧
    (feature_search_demo labels_only).best_overall_accuracy = 0 ∧
    leave_one_out_cross_validation labels_only [] = 1 ∧
    (feature_search_demo labels_only).best_overall_accuracy ≠
      leave_one_out_cross_validation labels_only [] := by
  decide!

/-- C12 (amended): with `F = 0` forward selection runs no level, evaluates
no candidate and reports the empty subset with its initial accuracy 0; backward
elimination runs no level and reports the empty subset with the accuracy that
the evaluator returns on the empty subset. -/
theorem empty_search_space (data : List (List ℚ))
    (_hrect : rectangular data) (_hN : 2 ≤ data.length) (hF0 : num_features data = 0) :
    ((feature_search_demo data).output = [] ∧
      (feature_search_demo data).current_set_of_features = [] ∧
      (feature_search_demo data).best_feature_set = [] ∧
      (feature_search_demo data).best_overall_accuracy = 0) ∧
    (∀ fuel, ∃ final, backward_elimination_demo data fuel = some (final, 0) ∧
      final.output = [] ∧ final.best_feature_set = [] ∧
      final.best_overall_accuracy = leave_one_out_cross_validation data []) := by
  constructor
  · unfold feature_search_demo
    rw [hF0]
    simp [forward_levels, forward_init]
  · intro fuel
    have h := backward_demo_eq_levels data fuel (by omega)
    rw [hF0] at h
    refine ⟨backward_levels data 0, h, ?_, ?_, ?_⟩
    · simp [backward_levels, backward_init]
    · simp [backward_levels, backward_init, hF0]
    · simp [backward_levels, backward_init, hF0]

/-- Witness of C12 (amended): the dataset `labels_only`. -/
theorem empty_search_space_witness :
    ((feature_search_demo labels_only).output = [] ∧
      (feature_search_demo labels_only).current_set_of_features = [] ∧
      (feature_search_demo labels_only).best_feature_set = [] ∧
      (feature_search_demo labels_only).best_overall_accuracy = 0) ∧
    (∀ fuel, ∃ final, backward_elimination_demo labels_only fuel = some (final, 0) ∧
      final.output = [] ∧ final.best_feature_set = [] ∧
      final.best_overall_accuracy = leave_one_out_cross_validation labels_only []) :=
  empty_search_space labels_only (by decide) (by decide) (by decide)

/-- C14: on a dataset of exactly one sample the nearest-neighbour location
stays unset, the sample is not counted as correct, and the evaluator returns the
accuracy 0. -/
theorem loocv_single_sample (data : List (List ℚ)) (S : List Nat)
    (_hrect : rectangular data) (h1 : data.length = 1) (_hS : valid_subset data S) :
    (nearest_neighbor data S 0).nearest_neighbor_location = none ∧
    number_correctly_classified data S = 0 ∧
    leave_one_out_cross_validation data S = 0 := by
  have hloc : (nearest_neighbor data S 0).nearest_neighbor_location = none := by
    cases h : (nearest_neighbor data S 0).nearest_neighbor_location with
    | none => rfl
    | some m =>
      exfalso
      rw [nearest_neighbor_eq_upto] at h
      obtain ⟨a, b, _⟩ := (nearest_upto_invariant data S 0 data.length).2 m h
      omega
  have hcount : number_correctly_classified data S = 0 := by
    rw [number_correctly_classified_eq, h1]
    simp [List.range_succ, classified_correctly, hloc]
  refine ⟨hloc, hcount, ?_⟩
  unfold leave_one_out_cross_validation
  rw [hcount]
  simp

/-- Witness of C14: one sample with two features, subset `{1}`. -/
theorem loocv_single_sample_witness :
    (nearest_neighbor [[1, 5, 7]] [1] 0).nearest_neighbor_location = none ∧
    number_correctly_classified [[1, 5, 7]] [1] = 0 ∧
    leave_one_out_cross_validation [[1, 5, 7]] [1] = 0 :=
  loocv_single_sample [[1, 5, 7]] [1] (by decide) (by decide) (by decide)

/-! ## Theorems on the two selection rules -/

theorem rules_agree_once_chosen (l : List ℚ) (n : Nat) (c : Option Nat) (b : ℚ)
    (hc : c ≠ none) :
    (l.enumFrom n).foldl (fun st pa => if pa.2 > st.2 then (some pa.1, pa.2) else st) (c, b) =
      (l.enumFrom n).foldl
        (fun st pa => if pa.2 > st.2 ∨ st.1 = none then (some pa.1, pa.2) else st) (c, b) := by
  induction l generalizing n c b with
  | nil => rfl
  | cons a rest ih =>
    simp only [List.enumFrom_cons, List.foldl_cons, hc, or_false]
    by_cases hgt : a > b
    · simp only [hgt, if_true]
      exact ih (n + 1) (some n) a (by simp)
    · simp only [hgt, if_false]
      exact ih (n + 1) c b hc

theorem rules_agree_from_zero (l : List ℚ) (n : Nat) (cb : Option Nat)
    (hl : ∀ a ∈ l, 0 ≤ a) (hpos : ∃ a ∈ l, 0 < a) :
    (l.enumFrom n).foldl (fun st pa => if pa.2 > st.2 then (some pa.1, pa.2) else st)
        (none, 0) =
      (l.enumFrom n).foldl
        (fun st pa => if pa.2 > st.2 ∨ st.1 = none then (some pa.1, pa.2) else st)
        (cb, 0) := by
  induction l generalizing n cb with
  | nil =>
    obtain ⟨a, ha, _⟩ := hpos
    simp at ha
  | cons a rest ih =>
    simp only [List.enumFrom_cons, List.foldl_cons]
    by_cases hgt : a > 0
    · simp only [hgt, if_true, true_or]
      exact rules_agree_once_chosen rest (n + 1) (some n) a (by simp)
    · have ha0 : a = 0 := le_antisymm (not_lt.mp hgt) (hl a (List.mem_cons_self a rest))
      have hrest : ∃ x ∈ rest, 0 < x := by
        obtain ⟨x, hx, hxpos⟩ := hpos
        rcases List.mem_cons.mp hx with h | h
        · rw [h] at hxpos; exact absurd hxpos hgt
        · exact ⟨x, h, hxpos⟩
      have hrl : ∀ x ∈ rest, 0 ≤ x := fun x hx => hl x (List.mem_cons_of_mem a hx)
      simp only [hgt, if_false, false_or]
      by_cases hcb : cb = none
      · simp only [hcb, if_true]
        rw [ha0]
        exact ih (n + 1) (some n) hrl hrest
      · simp only [hcb, if_false]
        exact ih (n + 1) cb hrl hrest

theorem forward_rule_concat (l : List ℚ) (a : ℚ) :
    forward_rule (l ++ [a]) =
      if a > (forward_rule l).2 then (some l.length, a) else forward_rule l := by
  unfold forward_rule
  rw [List.enum_append, List.foldl_append, List.enumFrom_singleton]
  rfl

theorem backward_rule_concat (l : List ℚ) (a : ℚ) :
    backward_rule (l ++ [a]) =
      if a > (backward_rule l).2 ∨ (backward_rule l).1 = none then (some l.length, a)
      else backward_rule l := by
  unfold backward_rule
  rw [List.enum_append, List.foldl_append, List.enumFrom_singleton]
  rfl

/-- The candidate loop of backward elimination applies `backward_rule` to
the accuracies of its candidates. -/
theorem backward_scan_upto_follows_rule (data : List (List ℚ)) (current : List Nat)
    (output : List Event) (n : Nat) :
    (backward_scan_upto data current output n).feature_to_remove =
      (backward_rule ((List.range n).map
        (fun i => leave_one_out_cross_validation data (current.eraseIdx i)))).1 ∧
    (backward_scan_upto data current output n).best_so_far_accuracy =
      (backward_rule ((List.range n).map
        (fun i => leave_one_out_cross_validation data (current.eraseIdx i)))).2 := by
  induction n with
  | zero => simp [backward_scan_upto, backward_rule]
  | succ n ih =>
    obtain ⟨ih1, ih2⟩ := ih
    rw [backward_scan_upto_succ, List.range_succ, List.map_append, List.map_singleton,
      backward_rule_concat]
    unfold backward_candidate
    simp only [ih1, ih2, List.length_map, List.length_range]
    by_cases h : leave_one_out_cross_validation data (current.eraseIdx n) >
        (backward_rule ((List.range n).map
          (fun i => leave_one_out_cross_validation data (current.eraseIdx i)))).2 ∨
        (backward_rule ((List.range n).map
          (fun i => leave_one_out_cross_validation data (current.eraseIdx i)))).1 = none
    · simp only [h, if_true, and_self]
    · simp only [h, if_false, and_self]

theorem backward_scan_follows_rule (data : List (List ℚ)) (current : List Nat)
    (output : List Event) :
    (backward_scan data current output).feature_to_remove =
      (backward_rule (backward_accuracies data current)).1 ∧
    (backward_scan data current output).best_so_far_accuracy =
      (backward_rule (backward_accuracies data current)).2 :=
  backward_scan_upto_follows_rule data current output current.length

/-- The candidate loop of forward selection applies `forward_rule` to the
accuracies of its candidates, the chosen position being that of the chosen
feature among the candidates. -/
theorem forward_scan_upto_follows_rule (data : List (List ℚ)) (current : List Nat)
    (output : List Event) (n : Nat) :
    (forward_scan_upto data current output n).best_so_far_accuracy =
      (forward_rule (((List.range' 1 n).filter (fun k => decide (k ∉ current))).map
        (fun k => leave_one_out_cross_validation data (current ++ [k])))).2 ∧
    ((forward_rule (((List.range' 1 n).filter (fun k => decide (k ∉ current))).map
        (fun k => leave_one_out_cross_validation data (current ++ [k])))).1 = none →
      (forward_scan_upto data current output n).feature_to_add_at_this_level = none) ∧
    (∀ p, (forward_rule (((List.range' 1 n).filter (fun k => decide (k ∉ current))).map
        (fun k => leave_one_out_cross_validation data (current ++ [k])))).1 = some p →
      ∃ k, ((List.range' 1 n).filter (fun k => decide (k ∉ current)))[p]? = some k ∧
        (forward_scan_upto data current output n).feature_to_add_at_this_level = some k) := by
  induction n with
  | zero => simp [forward_scan_upto, forward_rule]
  | succ n ih =>
    obtain ⟨ih1, ih2, ih3⟩ := ih
    rw [forward_scan_upto_succ, List.range'_1_concat, List.filter_append]
    unfold forward_candidate
    by_cases hmem : (1 + n) ∈ current
    · simp only [hmem, not_true_eq_false, if_false, List.filter_cons, decide_False,
        List.filter_nil, List.append_nil, Bool.false_eq_true]
      exact ⟨ih1, ih2, ih3⟩
    · simp only [hmem, not_false_eq_true, if_true, List.filter_cons, decide_True,
        List.filter_nil, List.map_append, List.map_singleton, List.map_nil]
      rw [forward_rule_concat]
      simp only [List.length_map, ← ih1]
      by_cases hgt : leave_one_out_cross_validation data (current ++ [1 + n]) >
          (forward_scan_upto data current output n).best_so_far_accuracy
      · simp only [hgt, if_true, true_and]
        refine ⟨fun h => by simp at h, fun p hp => ?_⟩
        simp only [Option.some.injEq] at hp
        subst hp
        exact ⟨1 + n, List.getElem?_concat_length _ _, rfl⟩
      · simp only [hgt, if_false]
        refine ⟨ih1, ih2, fun p hp => ?_⟩
        obtain ⟨k, hk, hfeat⟩ := ih3 p hp
        refine ⟨k, ?_, hfeat⟩
        have hlt : p < ((List.range' 1 n).filter (fun k => decide (k ∉ current))).length := by
          obtain ⟨h, _⟩ := List.getElem?_eq_some.mp hk
          exact h
        rw [List.getElem?_append_left hlt]
        exact hk

theorem forward_scan_follows_rule (data : List (List ℚ)) (current : List Nat)
    (output : List Event) :
    (forward_scan data current output).best_so_far_accuracy =
      (forward_rule (forward_accuracies data current)).2 ∧
    ((forward_rule (forward_accuracies data current)).1 = none →
      (forward_scan data current output).feature_to_add_at_this_level = none) ∧
    (∀ p, (forward_rule (forward_accuracies data current)).1 = some p →
      ∃ k, (forward_candidates data current)[p]? = some k ∧
        (forward_scan data current output).feature_to_add_at_this_level = some k) :=
  forward_scan_upto_follows_rule data current output (num_features data)

/-- Counterexample to C17 as stated: on the one-element list of accuracies
`[0]` the rule of forward selection chooses no position, the rule of backward
elimination chooses position 0. -/
theorem rules_differ_on_zero :
    ([0] : List ℚ) ≠ [] ∧ (∀ a ∈ ([0] : List ℚ), 0 ≤ a ∧ a ≤ 1) ∧
    forward_rule [0] = (none, 0) ∧ backward_rule [0] = (some 0, 0) ∧
    forward_rule [0] ≠ backward_rule [0] := by
  decide!

/-- C17 (amended): on every list of candidate accuracies in `[0, 1]` that
holds an accuracy above 0, the selection rule of forward selection and the
selection rule of backward elimination choose the same position and the same
best accuracy. -/
theorem rules_agree_on_positive (accuracies : List ℚ)
    (hrange : ∀ a ∈ accuracies, 0 ≤ a ∧ a ≤ 1) (hpos : ∃ a ∈ accuracies, 0 < a) :
    forward_rule accuracies = backward_rule accuracies := by
  unfold forward_rule backward_rule List.enum
  exact rules_agree_from_zero accuracies 0 none (fun a ha => (hrange a ha).1) hpos

/-- Witness of C17 (amended): the accuracies `0, 1/2, 1/2`. -/
theorem rules_agree_on_positive_witness :
    forward_rule [0, 1 / 2, 1 / 2] = backward_rule [0, 1 / 2, 1 / 2] :=
  rules_agree_on_positive [0, 1 / 2, 1 / 2] (by decide!) (by decide!)

end FeatureEvaluator
